import Mathlib

/-!
Verification development for the PR review/merge CLI
(`.agent/scripts/pr.py` and `.agent/scripts/inventory_threads.py`).

The pure logic of the scripts is embedded shallowly:
* text manipulation works on `String` / `List Char`;
* regex uses in the source are hand-compiled to recursive scanners that
  mirror the Python `re` semantics of the concrete patterns used
  (lazy/greedy groups, word boundaries, `IGNORECASE`), over the ASCII
  range that the tool's data actually inhabits;
* external collaborators (the `gh` CLI, the `gemini` generator, the
  interactive editor and confirmation prompt, `hashlib.md5`,
  `datetime.now`) are inputs of the model (`World`), and the merge
  command is a function from those inputs to an outcome, a trace of
  its externally visible actions (`Event`) and the resulting on-disk
  version store.
-/

set_option maxRecDepth 8192

/-! ## Basic string utilities mirroring Python primitives -/

/-- Python's `\s` whitespace class, ASCII range. -/
def isPySpace (c : Char) : Bool :=
  c = ' ' || c = '\t' || c = '\n' || c = '\r' || c = '\x0b' || c = '\x0c'

/-- Boolean prefix test on char lists. -/
def pfxL : List Char → List Char → Bool
  | [], _ => true
  | _ :: _, [] => false
  | a :: as, b :: bs => a == b && pfxL as bs

/-- Python's substring test `needle in hay`, on char lists. -/
def inL (n : List Char) : List Char → Bool
  | [] => pfxL n []
  | c :: rest => pfxL n (c :: rest) || inL n rest

/-- Python's substring test `needle in hay` for strings. -/
def pyIn (needle hay : String) : Bool := inL needle.data hay.data

/-- Suffix test on char lists. -/
def sfxL (s l : List Char) : Bool := pfxL s.reverse l.reverse

/-- Python `s.startswith(p)` (also the `glob` pattern head `p*`). -/
def pyStartsWith (p s : String) : Bool := pfxL p.data s.data

/-- Python `s.endswith(p)` (also the `glob` pattern tail `*p`). -/
def pyEndsWith (p s : String) : Bool := sfxL p.data s.data

/-- Python `s.split(sep, 1)` on char lists, `sep` nonempty: the part
before the first occurrence, and the remainder when there is one. -/
def splitOnceL (sep : List Char) : List Char → List Char × Option (List Char)
  | [] => ([], none)
  | c :: rest =>
    if pfxL sep (c :: rest) then ([], some ((c :: rest).drop sep.length))
    else
      let r := splitOnceL sep rest
      (c :: r.1, r.2)

/-- Python `s.split(sep, 1)` for strings. -/
def splitOnce (sep s : String) : String × Option String :=
  let r := splitOnceL sep.data s.data
  (String.mk r.1, r.2.map String.mk)

/-- Python `s.strip()` on char lists. -/
def trimL (l : List Char) : List Char :=
  ((l.dropWhile isPySpace).reverse.dropWhile isPySpace).reverse

/-- Python `s.strip()`. -/
def pyStrip (s : String) : String := String.mk (trimL s.data)

/-- Python `s.strip().lstrip("#")` as used for `--relates-to` arguments. -/
def pyLStripHash (s : String) : String :=
  String.mk (s.data.dropWhile (fun c => c = '#'))

/-- Python slicing `s[:n]`. -/
def pyTake (n : Nat) (s : String) : String := String.mk (s.data.take n)

/-- Python `s.split("\n")` on char lists (used to speak about the lines
of a composed body). -/
def linesL : List Char → List (List Char)
  | [] => [[]]
  | c :: rest =>
    if c = '\n' then [] :: linesL rest
    else
      match linesL rest with
      | [] => [[c]]
      | l :: ls => (c :: l) :: ls

/-- Value of a digit string, as Python `int` on the `\d+` captures. -/
def digitsToNat (l : List Char) : Nat := l.foldl (fun a c => a * 10 + (c.toNat - 48)) 0

/-- Value of a digit string, string version. -/
def strToNat (s : String) : Nat := digitsToNat s.data

/-- Deduplication keeping first occurrences (models Python `set(...)`
up to iteration order, which the source then sorts numerically). -/
def dedupAux (seen : List String) : List String → List String
  | [] => []
  | x :: xs => if seen.contains x then dedupAux seen xs else x :: dedupAux (x :: seen) xs

/-- Insertion into a list kept ascending by numeric value. -/
def insertByNat (x : String) : List String → List String
  | [] => [x]
  | y :: ys => if strToNat y ≤ strToNat x then y :: insertByNat x ys else x :: y :: ys

/-- Python `sorted(l, key=int)` on digit strings (tie order between
distinct strings with equal value is unspecified in the source, since it
iterates a `set`; this model keeps first-occurrence order). -/
def sortByNat (l : List String) : List String := l.foldl (fun acc x => insertByNat x acc) []

/-- Join with newlines, as Python `"\n".join`. -/
def joinN : List (List Char) → List Char
  | [] => []
  | [x] => x
  | x :: y :: xs => x ++ '\n' :: joinN (y :: xs)

/-- Join with newlines, string version. -/
def joinLines (ls : List String) : String := String.mk (joinN (ls.map String.data))

/-- Decimal digits of a positive number, most significant first; the
fuel argument only drives the recursion (`fuel = n` suffices). -/
def natDigitsF : Nat → Nat → List Char
  | 0, _ => []
  | fuel + 1, n =>
    if n = 0 then []
    else natDigitsF fuel (n / 10) ++ [Char.ofNat (48 + n % 10)]

/-- Python decimal rendering of a number (`str(n)` / `f"{n}"`). -/
def natRepr (n : Nat) : String :=
  if n = 0 then "0" else String.mk (natDigitsF n n)

/-! ## Reply validation (`validate_reply`, pr.py lines 109-118 and
inventory_threads.py lines 113-124)

The reply must contain a commit SHA (`\b[0-9a-f]{7,40}\b`) or an issue
reference (`#\d+`). -/

/-- Python's `\w` word class (ASCII range). -/
def wordChar (c : Char) : Bool := c.isAlpha || c.isDigit || c = '_'

/-- Lowercase hex character class `[0-9a-f]`. -/
def hexLower (c : Char) : Bool := ('0' ≤ c && c ≤ '9') || ('a' ≤ c && c ≤ 'f')

/-- Match of `[0-9a-f]{7,40}\b` anchored at this position: some count
`k` between 7 and 40 of lowercase-hex chars, followed by a word
boundary (end of input or a non-word char). -/
def shaAt (cs : List Char) : Bool :=
  (List.range 34).any fun d =>
    let k := 7 + d
    (cs.take k).length = k && (cs.take k).all hexLower &&
      (match cs.drop k with
       | [] => true
       | c :: _ => !wordChar c)

/-- Search for `\b[0-9a-f]{7,40}\b` (Python `re.search`): the flag
tracks whether the previous char was a non-word char, so that the
leading `\b` holds at the scan position. -/
def searchShaGo (prevNonWord : Bool) : List Char → Bool
  | [] => false
  | c :: rest => (prevNonWord && shaAt (c :: rest)) || searchShaGo (!wordChar c) rest

/-- Search for a word-bounded 7-40 char lowercase-hex token. -/
def searchSha (s : String) : Bool := searchShaGo true s.data

/-- Search for `#\d+` (Python `re.search`). -/
def searchIssueGo : List Char → Bool
  | [] => false
  | '#' :: c :: rest => c.isDigit || searchIssueGo (c :: rest)
  | _ :: rest => searchIssueGo rest

/-- Search for a `#<digits>` issue reference. -/
def searchIssueRef (s : String) : Bool := searchIssueGo s.data

/-- Model of `validate_reply`: `true` means the reply passes, `false`
means the function raises `typer.Exit(1)`. -/
def validate_reply (body : String) : Bool := searchSha body || searchIssueRef body

/-! ## The `resolve` command (pr.py lines 298-343,
inventory_threads.py lines 249-300)

It validates the reply, then performs two remote mutations in order:
reply to the thread, then resolve the thread; a failed reply aborts
before the resolve mutation. -/

/-- Externally visible actions of `resolve`. -/
inductive ResolveEvent where
  | replyMutation (threadId body : String)
  | resolveMutation (threadId : String)
  deriving DecidableEq

/-- Outcome of the `resolve` command. -/
inductive ResolveOutcome where
  | ok
  | exits1
  deriving DecidableEq

/-- Model of the `resolve` command; `replyOk` and `resolveOk` are the
exit statuses of the two `gh api graphql` mutations. -/
def resolveCmd (threadId reply : String) (replyOk resolveOk : Bool) :
    ResolveOutcome × List ResolveEvent :=
  if !validate_reply reply then (.exits1, [])
  else if !replyOk then (.exits1, [.replyMutation threadId reply])
  else if !resolveOk then
    (.exits1, [.replyMutation threadId reply, .resolveMutation threadId])
  else (.ok, [.replyMutation threadId reply, .resolveMutation threadId])

/-! ## Text sanitizers (`clean_body`, pr.py lines 57-67 and
inventory_threads.py lines 96-110)

Each regex substitution of the source is compiled to a scanner with the
same matching semantics (lazy groups with backtracking, leftmost
non-overlapping matches, resuming after the replaced span). -/

/-- Lazy `(.*?)close` with backtracking: the shortest non-newline span
followed by `close` such that the continuation `k` succeeds on the
remainder; returns the captured span and the continuation's result. -/
def lazyUpTo (close : Char) (k : List Char → Option (List Char)) :
    List Char → Option (List Char × List Char)
  | [] => none
  | c :: rest =>
    if c = '\n' then none
    else
      match (if c = close then k rest else none) with
      | some r => some ([], r)
      | none => (lazyUpTo close k rest).map fun p => (c :: p.1, p.2)

/-- Lazy `.*?close` without capture. -/
def lazySkipTo (close : Char) (k : List Char → Option (List Char)) :
    List Char → Option (List Char)
  | [] => none
  | c :: rest =>
    if c = '\n' then none
    else
      match (if c = close then k rest else none) with
      | some r => some r
      | none => lazySkipTo close k rest

/-- Match `!\[(.*?)\]\(.*?\)` (image markup) at this position, returning
the alt-text group and the rest after the match. -/
def matchImage : List Char → Option (List Char × List Char)
  | '!' :: '[' :: rest =>
    lazyUpTo ']'
      (fun r1 =>
        match r1 with
        | '(' :: r2 => lazySkipTo ')' some r2
        | _ => none) rest
  | _ => none

/-- Match `\[!\[(.*?)\]\(.*?\)\]\(.*?\)` (linked-image markup) at this
position. -/
def matchLinkedImage : List Char → Option (List Char × List Char)
  | '[' :: '!' :: '[' :: rest =>
    lazyUpTo ']'
      (fun r1 =>
        match r1 with
        | '(' :: r2 =>
          lazySkipTo ')'
            (fun r3 =>
              match r3 with
              | ']' :: '(' :: r4 => lazySkipTo ')' some r4
              | _ => none) r2
        | _ => none) rest
  | _ => none

/-- Match `\[(.*?)\]\(.*?\)` (hyperlink markup) at this position. -/
def matchLink : List Char → Option (List Char × List Char)
  | '[' :: rest =>
    lazyUpTo ']'
      (fun r1 =>
        match r1 with
        | '(' :: r2 => lazySkipTo ')' some r2
        | _ => none) rest
  | _ => none

/-- Match `<!--` then lazily skip to the first `-->` (HTML comment). -/
def commentClose : List Char → Option (List Char × List Char)
  | [] => none
  | '-' :: '-' :: '>' :: r => some ([], r)
  | _ :: r => commentClose r

/-- Match `<!--[\s\S]*?-->` at this position. -/
def matchComment : List Char → Option (List Char × List Char)
  | '<' :: '!' :: '-' :: '-' :: rest => commentClose rest
  | _ => none

/-- Match `<[^>]+>` (HTML tag) at this position. -/
def matchTag : List Char → Option (List Char × List Char)
  | '<' :: rest =>
    let run := rest.takeWhile (fun c => c ≠ '>')
    if run.isEmpty then none
    else
      match rest.drop run.length with
      | '>' :: r => some ([], r)
      | _ => none
  | _ => none

/-- The backtick character (code 96). -/
def btick : Char := Char.ofNat 96

/-- Skip lazily to the next triple backtick. -/
def fenceClose : List Char → Option (List Char × List Char)
  | c1 :: c2 :: c3 :: r =>
    if c1 = btick && c2 = btick && c3 = btick then some ([], r)
    else fenceClose (c2 :: c3 :: r)
  | _ => none

/-- Match a fenced code block (triple backtick, lazy any, triple
backtick) at this position. -/
def matchFence : List Char → Option (List Char × List Char)
  | c1 :: c2 :: c3 :: rest =>
    if c1 = btick && c2 = btick && c3 = btick then fenceClose rest
    else none
  | _ => none

/-- Match an inline code span (backtick, one or more non-backticks,
backtick) at this position. -/
def matchInlineCode : List Char → Option (List Char × List Char)
  | c :: rest =>
    if c = btick then
      let run := rest.takeWhile (fun x => x ≠ btick)
      if run.isEmpty then none
      else
        match rest.drop run.length with
        | d :: r => if d = btick then some ([], r) else none
        | [] => none
    else none
  | [] => none

/-- Driver of Python `re.sub`: leftmost matches, non-overlapping,
scanning resumes after each replacement. The fuel is the input length;
every match consumes at least one input char. -/
def subAllF (m : List Char → Option (List Char × List Char))
    (repl : List Char → List Char) : Nat → List Char → List Char
  | 0, cs => cs
  | _ + 1, [] => []
  | fuel + 1, c :: rest =>
    match m (c :: rest) with
    | some (g, after) => repl g ++ subAllF m repl fuel after
    | none => c :: subAllF m repl fuel rest

/-- One full `re.sub` pass. -/
def subAll (m : List Char → Option (List Char × List Char))
    (repl : List Char → List Char) (cs : List Char) : List Char :=
  subAllF m repl cs.length cs

/-- Collapse runs of whitespace to single spaces (`re.sub(r"\s+", " ", text)`). -/
def squeezeSpaces : List Char → List Char
  | [] => []
  | [c] => [c]
  | a :: b :: rest =>
    if a = ' ' && b = ' ' then squeezeSpaces (b :: rest)
    else a :: squeezeSpaces (b :: rest)

/-- Whitespace collapse followed by `.strip()`. -/
def collapseWs (cs : List Char) : List Char :=
  let mapped := cs.map (fun c => if isPySpace c then ' ' else c)
  let s := squeezeSpaces mapped
  ((s.dropWhile (fun c => c = ' ')).reverse.dropWhile (fun c => c = ' ')).reverse

namespace Pr

/-- Model of `clean_body` in pr.py: comments removed, linked images
removed, images removed, links reduced to their text, tags removed,
code fences to "[CODE]", inline code to "[code]", whitespace
collapsed. Note both image substitutions use the empty replacement. -/
def clean_body (text : String) : String :=
  let t1 := subAll matchComment (fun _ => []) text.data
  let t2 := subAll matchLinkedImage (fun _ => []) t1
  let t3 := subAll matchImage (fun _ => []) t2
  let t4 := subAll matchLink (fun g => g) t3
  let t5 := subAll matchTag (fun _ => []) t4
  let t6 := subAll matchFence (fun _ => "[CODE]".data) t5
  let t7 := subAll matchInlineCode (fun _ => "[code]".data) t6
  String.mk (collapseWs t7)

end Pr

namespace Inv

/-- Model of `clean_body` in inventory_threads.py: comments removed,
images to "[IMG:alt]", then linked images to "[IMG:alt]" (this pattern
can no longer match because the inner image was already replaced), then
links reduced to their text, tags removed, whitespace collapsed. -/
def clean_body (text : String) : String :=
  let t1 := subAll matchComment (fun _ => []) text.data
  let t2 := subAll matchImage (fun g => "[IMG:".data ++ g ++ "]".data) t1
  let t3 := subAll matchLinkedImage (fun g => "[IMG:".data ++ g ++ "]".data) t2
  let t4 := subAll matchLink (fun g => g) t3
  let t5 := subAll matchTag (fun _ => []) t4
  String.mk (collapseWs t5)

end Inv

/-! ## Merge data model

`PRDetails` mirrors the JSON fields requested by `get_pr_details`
(pr.py lines 389-404); `Issue.number` and `Commit.messageHeadline` are
optional-with-default exactly as the `dict.get` calls read them
(a Python issue number `0` is falsy, which `truthyNum` reproduces). -/

/-- One entry of the `commits` list. -/
structure Commit where
  messageHeadline : String
  deriving DecidableEq

/-- One entry of `closingIssuesReferences`. -/
structure Issue where
  number : Option Nat
  deriving DecidableEq

/-- The PR snapshot returned by `gh pr view --json
title,body,commits,state,mergeable,closingIssuesReferences`. -/
structure PRDetails where
  title : String
  body : Option String
  commits : List Commit
  state : String
  mergeable : String
  closingIssuesReferences : List Issue
  deriving DecidableEq

/-- Python truthiness of `issue.get("number")`: `None` and `0` are falsy. -/
def truthyNum : Option Nat → Option Nat
  | some n => if n = 0 then none else some n
  | none => none

/-- The set of closing issue numbers (`{i.get("number") for i in
closing_issues if i.get("number")}`). -/
def closingNumbers (issues : List Issue) : List Nat :=
  issues.filterMap (fun i => truthyNum i.number)

/-- One review-thread node as far as `get_unresolved_threads` reads it. -/
structure ThreadNode where
  isResolved : Bool
  isOutdated : Bool
  deriving DecidableEq

/-- Model of `get_unresolved_threads` (pr.py lines 407-445): count the
nodes that are neither resolved nor outdated. (In the source this
function is defined but never invoked by `merge`.) -/
def get_unresolved_threads (nodes : List ThreadNode) : Nat :=
  (nodes.filter (fun n => !n.isResolved && !n.isOutdated)).length

/-! ## Reference extraction from the PR description
(`generate_merge_body`, pr.py lines 448-502)

The pattern `(?:relates|towards|part of|connects to|see)\s+(?:to\s+)?#(\d+)`
with `IGNORECASE` is compiled by hand: the five keywords start with
distinct letters, so the alternation is deterministic; shortening the
greedy `\s+` can never rescue a failed continuation, so only the
optional `to\s+` group backtracks. -/

/-- Strip a lowercase-given literal keyword case-insensitively. -/
def stripKw : List Char → List Char → Option (List Char)
  | [], rest => some rest
  | _ :: _, [] => none
  | k :: ks, c :: cs => if c.toLower = k then stripKw ks cs else none

/-- The relation keywords, in the pattern's alternation order. -/
def RELATED_KEYWORDS : List (List Char) :=
  ["relates".data, "towards".data, "part of".data, "connects to".data, "see".data]

/-- First keyword of the alternation matching at this position. -/
def tryKeywords : List (List Char) → List Char → Option (List Char)
  | [], _ => none
  | k :: ks, cs =>
    match stripKw k cs with
    | some r => some r
    | none => tryKeywords ks cs

/-- Match `#(\d+)` at this position, returning the digit group. -/
def parseHashDigits : List Char → Option (List Char × List Char)
  | '#' :: rest =>
    let ds := rest.takeWhile Char.isDigit
    if ds.isEmpty then none else some (ds, rest.drop ds.length)
  | _ => none

/-- Match the full related-issue pattern at this position. -/
def matchRelAt (cs : List Char) : Option (List Char × List Char) :=
  match tryKeywords RELATED_KEYWORDS cs with
  | none => none
  | some r1 =>
    let ws := r1.takeWhile isPySpace
    if ws.isEmpty then none
    else
      let r2 := r1.drop ws.length
      let withTo : Option (List Char × List Char) :=
        match stripKw "to".data r2 with
        | some r3 =>
          let ws2 := r3.takeWhile isPySpace
          if ws2.isEmpty then none else parseHashDigits (r3.drop ws2.length)
        | none => none
      match withTo with
      | some res => some res
      | none => parseHashDigits r2

/-- `re.findall` driver: leftmost non-overlapping matches. -/
def findRelAux : Nat → List Char → List (List Char)
  | 0, _ => []
  | _ + 1, [] => []
  | fuel + 1, c :: rest =>
    match matchRelAt (c :: rest) with
    | some (ds, after) => ds :: findRelAux fuel after
    | none => findRelAux fuel rest

/-- All captures of the related-issue pattern in scan order. -/
def findRelated (s : String) : List String :=
  (findRelAux s.data.length s.data).map String.mk

/-- The deduplicated, numerically sorted related-issue digit strings
scanned from the PR description (pr.py lines 483-493), minus the
closing-issue numbers. -/
def autoRelatedOf (pr : PRDetails) : List String :=
  let pr_body := pr.body.getD ""
  let found_related := findRelated pr_body
  let related_numbers := found_related.filter
    (fun n => !((closingNumbers pr.closingIssuesReferences).contains (strToNat n)))
  sortByNat (dedupAux [] related_numbers)

/-- The `body_lines` list built by `generate_merge_body` before the
final join (pr.py lines 455-500). -/
def generateBodyLines (pr : PRDetails) (pr_number : Nat) : List String :=
  let commit_msgs := (pr.commits.map Commit.messageHeadline).filter (fun m => m != "")
  ["PR #" ++ natRepr pr_number ++ ": " ++ pr.title, "", "## Changes", ""]
  ++ (commit_msgs.take 10).map (fun m => "- " ++ m)
  ++ (if pr.commits.length > 10 then
        ["- ... and " ++ natRepr (pr.commits.length - 10) ++ " more commits"]
      else [])
  ++ (if pr.closingIssuesReferences.isEmpty then [] else
        ["", "## Fixes", ""]
        ++ pr.closingIssuesReferences.filterMap (fun i =>
            (truthyNum i.number).map (fun n => "Fixes #" ++ natRepr n)))
  ++ (if (autoRelatedOf pr).isEmpty then [] else
        ["", "## Related Issues", ""]
        ++ (autoRelatedOf pr).map (fun num => "Relates to #" ++ num))

/-- Model of `generate_merge_body` (pr.py lines 448-502): the
deterministic body skeleton and the deduplicated, numerically sorted
related-issue digit strings. -/
def generate_merge_body (pr : PRDetails) (pr_number : Nat) : String × List String :=
  (joinLines (generateBodyLines pr pr_number), autoRelatedOf pr)

/-! ## Title validation (`validate_semantic_title`, pr.py lines 361-371)

The regex `^(feat|fix|docs|style|refactor|test|chore|perf|ci)
(\([a-z0-9-]+\))?: .+ \(#N\)$` with `IGNORECASE` under `re.match`.
The nine types start pairwise non-prefix of each other, so at most one
alternative matches; when a `(` is present but the scope group fails or
is not followed by the rest of the pattern, the skipped-group branch
would need `:` at the `(` and also fails; `$` accepts one trailing
newline; `.` excludes newlines. -/

/-- The `COMMIT_TYPES` list (pr.py lines 348-358). -/
def COMMIT_TYPES : List String :=
  ["feat", "fix", "docs", "style", "refactor", "test", "chore", "perf", "ci"]

/-- First commit type matching case-insensitively at the head. -/
def matchTypePfx (cs : List Char) : Option (List Char) :=
  tryKeywords (COMMIT_TYPES.map String.data) cs

/-- The scope class `[a-z0-9-]` under `IGNORECASE`. -/
def scopeOk (c : Char) : Bool :=
  ('a' ≤ c.toLower && c.toLower ≤ 'z') || ('0' ≤ c && c ≤ '9') || c = '-'

/-- Model of `validate_semantic_title`: `true` exactly when the regex
matches the title. (The source also returns an explanatory message,
which carries no further logic.) -/
def validate_semantic_title (title : String) (pr_number : Nat) : Bool :=
  match matchTypePfx title.data with
  | none => false
  | some rest =>
    let afterScope : Option (List Char) :=
      match rest with
      | '(' :: r =>
        let run := r.takeWhile scopeOk
        if run.isEmpty then none
        else
          match r.drop run.length with
          | ')' :: r2 => some r2
          | _ => none
      | _ => some rest
    match afterScope with
    | none => false
    | some r2 =>
      match r2 with
      | ':' :: ' ' :: r3 =>
        let r4 := if r3.getLast? = some '\n' then r3.dropLast else r3
        let sfx := (" (#" ++ natRepr pr_number ++ ")").data
        !(r4.contains '\n') && sfxL sfx r4 && decide (sfx.length < r4.length)
      | _ => false

/-! ## Version store (`save_msg_version`, pr.py lines 90-106; loading,
pr.py lines 667-676; `history`, pr.py lines 264-295)

The per-PR cache directory is modelled as a list of `(filename,
content)` pairs plus the `latest.md` pointer. `hashlib.md5(...)
.hexdigest()` and `datetime.now().strftime(...)` are external
primitives and enter as parameters. -/

/-- The per-PR message version directory. -/
structure VersionStore where
  files : List (String × String)
  latestPtr : Option String
  deriving DecidableEq

/-- The empty store. -/
def VersionStore.empty : VersionStore := { files := [], latestPtr := none }

/-- Model of `save_msg_version`: content is `title\n\nbody`, the id is
the first 7 hex digits of its md5, the version file is
`{timestamp}-{source}-{hash}.md`, and `latest.md` is overwritten.
Returns the short id and the updated store. -/
def save_msg_version (md5hex : String → String) (timestamp : String)
    (store : VersionStore) (title body source : String) : String × VersionStore :=
  let content := title ++ "\n\n" ++ body
  let msg_hash := pyTake 7 (md5hex content)
  let version_file := timestamp ++ "-" ++ source ++ "-" ++ msg_hash ++ ".md"
  (msg_hash,
   { files := (version_file, content) :: store.files
     latestPtr := some content })

/-- Model of the `--version` load in `merge` (pr.py lines 667-676):
the first stored file whose name contains the fragment, split on the
first blank line into stripped title and stripped body, with source
tag `v{fragment}`. -/
def loadVersion (store : VersionStore) (version : String) :
    Option (String × String × String) :=
  match store.files.find? (fun f => pyIn version f.1) with
  | none => none
  | some f =>
    let parts := splitOnce "\n\n" f.2
    some (pyStrip parts.1, ((parts.2.map pyStrip).getD "", "v" ++ version))

/-- Descending sort of file names (Python `sorted(..., reverse=True)`). -/
def insertDescStr (x : String) : List String → List String
  | [] => [x]
  | y :: ys => if decide (x < y) then y :: insertDescStr x ys else x :: y :: ys

/-- Descending sort driver. -/
def sortDescStr (l : List String) : List String := l.foldr insertDescStr []

/-- Model of the `history` listing (pr.py line 276): the version files
matching the glob `msg-*.md`, newest (lexicographically largest) first. -/
def historyListing (store : VersionStore) : List String :=
  sortDescStr ((store.files.map Prod.fst).filter
    (fun n => pyStartsWith "msg-" n && pyEndsWith ".md" n && decide (7 ≤ n.length)))

/-! ## The merge pipeline (`merge`, pr.py lines 612-845)

External collaborators are inputs: `World` carries the fetch result
(`none` models the `gh pr view` process error for a missing PR), the
review threads the provider would report, the AI generator output (an
empty title models its failure return `("", "")`), the interactive
editor result (`none` models an aborted editor), the confirmation
answer, the merge executor exit status, and the md5/timestamp
primitives. PR auto-detection from the current branch and the
`--history` listing forward to other code paths and carry no merge
logic. -/

/-- Externally visible actions of `merge`, in order. -/
inductive Event where
  | fetch (pr : Nat)
  | save (source title body : String)
  | editPrompt (initial : String)
  | preview (title body : String)
  | warnOpenThreads (count : Nat)
  | confirm (prompt : String)
  | mergeExec (pr : Nat) (subject body : String)
  deriving DecidableEq

/-- Outcome of the `merge` command. -/
inductive Outcome where
  | merged
  | cancelled
  | dryRun
  | historyShown
  | mergeFailed
  | fatal (msg : String)
  deriving DecidableEq

/-- The command options of `merge` (empty `relates_to` models the
absent option; an empty `--title` string is falsy in the source and is
normalised away in the pipeline). -/
structure MergeFlags where
  titleOpt : Option String
  dry_run : Bool
  relates_to : List String
  ai : Bool
  edit : Bool
  version : Option String
  history_list : Bool
  deriving DecidableEq

/-- The default flags: plain `pr merge N`. -/
def MergeFlags.default : MergeFlags :=
  { titleOpt := none, dry_run := false, relates_to := [], ai := false
    edit := false, version := none, history_list := false }

/-- The external collaborators of one `merge` run. -/
structure World where
  prDetails : Option PRDetails
  threads : List ThreadNode
  aiMessage : String × String
  editResult : Option String
  confirmAnswer : Bool
  mergeExecOk : Bool
  timestamp : String
  md5hex : String → String

/-- Python truthiness of the `--title` option. -/
def truthyStr : Option String → Option String
  | some t => if t = "" then none else some t
  | none => none

/-- Footer composition of `merge` (pr.py lines 716-745): append the
Fixes section, the auto-detected Related Issues, then the `--relates-to`
issues, each line only when not already a substring of the body. -/
def addUnless (needle add b : String) : String :=
  if pyIn needle b then b else b ++ add

/-- One iteration of the Fixes loop (pr.py lines 721-724):
`if num and f"Fixes #{num}" not in merge_body: merge_body += f"\nFixes #{num}"`. -/
def fixStep (acc : String) (issue : Issue) : String :=
  match truthyNum issue.number with
  | some num => addUnless ("Fixes #" ++ natRepr num) ("\n" ++ ("Fixes #" ++ natRepr num)) acc
  | none => acc

/-- The Fixes block (pr.py lines 717-724). -/
def appendFixes (linked_issues : List Issue) (b : String) : String :=
  if linked_issues.isEmpty then b
  else
    linked_issues.foldl fixStep
      (addUnless "## Fixes" ("\n\n" ++ "## Fixes" ++ "\n") b)

/-- One iteration of the auto-related loop (pr.py lines 731-733). -/
def autoStep (acc : String) (num : String) : String :=
  addUnless ("Relates to #" ++ num) ("\n" ++ ("Relates to #" ++ num)) acc

/-- The auto-detected Related Issues block (pr.py lines 727-733). -/
def appendAutoRelated (auto_related : List String) (b : String) : String :=
  if auto_related.isEmpty then b
  else
    auto_related.foldl autoStep
      (addUnless "## Related Issues" ("\n\n" ++ "## Related Issues" ++ "\n") b)

/-- One iteration of the `--relates-to` loop (pr.py lines 739-745);
entries already in the auto-detected list are skipped. -/
def cliStep (auto_related : List String) (acc : String) (issue : String) : String :=
  let clean_issue := pyLStripHash (pyStrip issue)
  if auto_related.contains clean_issue then acc
  else
    addUnless ("Relates to #" ++ clean_issue) ("\n" ++ ("Relates to #" ++ clean_issue)) acc

/-- The `--relates-to` block (pr.py lines 736-745). -/
def appendCliRelated (relates_to : List String) (auto_related : List String)
    (b : String) : String :=
  if relates_to.isEmpty then b
  else
    relates_to.foldl (cliStep auto_related)
      (addUnless "## Related Issues" ("\n\n" ++ "## Related Issues" ++ "\n") b)

/-- All three footer blocks, with the auto-detected list recomputed from
the snapshot exactly as line 727 does. -/
def composeFooters (pr : PRDetails) (pr_number : Nat) (relates_to : List String)
    (b : String) : String :=
  let auto := (generate_merge_body pr pr_number).2
  appendCliRelated relates_to auto (appendAutoRelated auto (appendFixes pr.closingIssuesReferences b))

/-- Initial title/body/source selection of `merge` (pr.py lines
661-707): version replay, else AI, else the PR title (suffixed with
`(#N)` when missing) and the deterministic body; then the `--title`
override when no version was requested. -/
def initialMessage (w : World) (store : VersionStore) (pr : PRDetails)
    (pr_number : Nat) (fl : MergeFlags) : Except Outcome (String × String × String) :=
  let source0 := if fl.ai then "ai" else "manual"
  let tOpt := truthyStr fl.titleOpt
  let base : Except Outcome (String × String × String) :=
    match fl.version with
    | some v =>
      match loadVersion store v with
      | none => .error (.fatal ("Version " ++ v ++ " not found"))
      | some (t, b, src) => .ok (t, b, src)
    | none =>
      if fl.ai && w.aiMessage.1 != "" then .ok (w.aiMessage.1, w.aiMessage.2, source0)
      else .ok ("", "", source0)
  match base with
  | .error o => .error o
  | .ok (t1, b1, src) =>
    let (t2, b2) :=
      if t1 = "" then
        let tt :=
          match tOpt with
          | some t => t
          | none =>
            if pyIn ("(#" ++ natRepr pr_number ++ ")") pr.title then pr.title
            else pr.title ++ " (#" ++ natRepr pr_number ++ ")"
        let bb := if b1 = "" then (generate_merge_body pr pr_number).1 else b1
        (tt, bb)
      else (t1, b1)
    let t3 :=
      match tOpt, fl.version with
      | some t, none => t
      | _, _ => t2
    .ok (t3, b2, src)

/-- The optional interactive edit of `merge` (pr.py lines 766-777):
when `--edit` was given and the editor returns a text that differs
after stripping, the message is re-split at the first newline and a
new version tagged `edit` is saved; no validation is performed here.
Returns the (possibly new) title, body, store and the edit events. -/
def editStage (w : World) (fl : MergeFlags) (store1 : VersionStore) (mt mb : String) :
    String × String × VersionStore × List Event :=
  if fl.edit then
    let full := mt ++ "\n\n" ++ mb
    match w.editResult with
    | some edited =>
      if edited != "" && pyStrip edited != pyStrip full then
        let lns := splitOnce "\n" (pyStrip edited)
        let nt := pyStrip lns.1
        let nb := (lns.2.map pyStrip).getD ""
        let saved2 := save_msg_version w.md5hex w.timestamp store1 nt nb "edit"
        (nt, nb, saved2.2, [Event.editPrompt full, Event.save "edit" nt nb])
      else (mt, mb, store1, [Event.editPrompt full])
    | none => (mt, mb, store1, [Event.editPrompt full])
  else (mt, mb, store1, [])

/-- Model of the `merge` command. Returns the outcome, the trace of
externally visible actions in order, and the resulting version store. -/
def mergeCmd (w : World) (store : VersionStore) (pr_number : Nat) (fl : MergeFlags) :
    Outcome × List Event × VersionStore :=
  if fl.history_list then (.historyShown, [], store)
  else
    match w.prDetails with
    | none => (.fatal "Error fetching PR", [.fetch pr_number], store)
    | some pr =>
      match initialMessage w store pr pr_number fl with
      | .error o => (o, [.fetch pr_number], store)
      | .ok (mt, mb0, src) =>
        if !validate_semantic_title mt pr_number then
          (.fatal "Invalid commit title", [.fetch pr_number], store)
        else
          let mb := composeFooters pr pr_number fl.relates_to mb0
          if !validate_semantic_title mt pr_number then
            (.fatal "Invalid commit title", [.fetch pr_number], store)
          else
            let saved := save_msg_version w.md5hex w.timestamp store mt mb src
            let store1 := saved.2
            let ev0 := [Event.fetch pr_number, Event.save src mt mb]
            match editStage w fl store1 mt mb with
            | (mt2, mb2, store2, evEdit) =>
              let ev2 := ev0 ++ evEdit ++ [Event.preview mt2 mb2]
              if fl.dry_run then (.dryRun, ev2, store2)
              else
                let ev3 := ev2 ++
                  [Event.confirm ("Proceed with squash merge of PR #" ++ natRepr pr_number ++ "?")]
                if !w.confirmAnswer then (.cancelled, ev3, store2)
                else
                  let ev4 := ev3 ++ [Event.mergeExec pr_number mt2 mb2]
                  if w.mergeExecOk then (.merged, ev4, store2)
                  else (.mergeFailed, ev4, store2)

/-! ## Lemmas about the string utilities -/

theorem sdata_append (s t : String) : (s ++ t).data = s.data ++ t.data := rfl

theorem pfxL_refl : ∀ l : List Char, pfxL l l = true
  | [] => rfl
  | c :: rest => by simp [pfxL, pfxL_refl rest]

theorem pfxL_extend : ∀ {n l : List Char} (t : List Char), pfxL n l = true → pfxL n (l ++ t) = true
  | [], _, _, _ => rfl
  | _ :: _, [], t, h => by simp [pfxL] at h
  | a :: as, b :: bs, t, h => by
    simp only [pfxL, Bool.and_eq_true, beq_iff_eq] at h ⊢
    exact ⟨h.1, pfxL_extend t h.2⟩

theorem inL_needle_nil : ∀ l : List Char, inL [] l = true
  | [] => rfl
  | _ :: _ => by simp [inL, pfxL]

theorem inL_extend {n h : List Char} (t : List Char) (hh : inL n h = true) :
    inL n (h ++ t) = true := by
  induction h with
  | nil =>
    cases n with
    | nil => exact inL_needle_nil t
    | cons a as => simp [inL, pfxL] at hh
  | cons c rest ih =>
    simp only [inL, Bool.or_eq_true] at hh
    rcases hh with hp | hi
    · simp only [List.cons_append, inL, Bool.or_eq_true]
      exact Or.inl (pfxL_extend t hp)
    · simp only [List.cons_append, inL, Bool.or_eq_true]
      exact Or.inr (ih hi)

theorem inL_append_self : ∀ (x n : List Char), inL n (x ++ n) = true
  | [], n => by
    cases n with
    | nil => rfl
    | cons c rest => simp [inL, pfxL_refl]
  | c :: x', n => by
    simp only [List.cons_append, inL, Bool.or_eq_true]
    exact Or.inr (inL_append_self x' n)

theorem inL_sandwich (x n y : List Char) : inL n (x ++ (n ++ y)) = true := by
  have h := inL_extend y (inL_append_self x n)
  rwa [List.append_assoc] at h

theorem pyIn_extend {s b : String} (t : String) (h : pyIn s b = true) :
    pyIn s (b ++ t) = true := by
  show inL s.data (b.data ++ t.data) = true
  exact inL_extend t.data h

/-! ## Lemmas about `addUnless` -/

theorem addUnless_mono {s b : String} (nd a : String) (h : pyIn s b = true) :
    pyIn s (addUnless nd a b) = true := by
  unfold addUnless
  split
  · exact h
  · exact pyIn_extend a h

theorem addUnless_id {nd b : String} (a : String) (h : pyIn nd b = true) :
    addUnless nd a b = b := by
  unfold addUnless
  simp [h]

theorem addUnless_pre (nd pre b : String) : pyIn nd (addUnless nd (pre ++ nd) b) = true := by
  unfold addUnless
  split
  · assumption
  · show inL nd.data (b.data ++ (pre.data ++ nd.data)) = true
    rw [← List.append_assoc]
    exact inL_append_self (b.data ++ pre.data) nd.data

theorem addUnless_wrap (nd pre post b : String) :
    pyIn nd (addUnless nd (pre ++ nd ++ post) b) = true := by
  unfold addUnless
  split
  · assumption
  · show inL nd.data (b.data ++ ((pre.data ++ nd.data) ++ post.data)) = true
    rw [List.append_assoc pre.data, ← List.append_assoc]
    exact inL_sandwich (b.data ++ pre.data) nd.data post.data

/-! ## Lemmas about `natRepr` -/

theorem natDigitsF_digits : ∀ (fuel n : Nat) (c : Char), c ∈ natDigitsF fuel n → c.isDigit = true := by
  intro fuel
  induction fuel with
  | zero => intro n c h; simp [natDigitsF] at h
  | succ f ih =>
    intro n c h
    by_cases h0 : n = 0
    · simp [natDigitsF, h0] at h
    · simp only [natDigitsF, h0, if_false, List.mem_append, List.mem_singleton] at h
      rcases h with h | h
      · exact ih _ _ h
      · subst h
        have hm : n % 10 < 10 := Nat.mod_lt _ (by decide)
        interval_cases h : (n % 10) <;> decide

theorem natRepr_digits {n : Nat} {c : Char} (h : c ∈ (natRepr n).data) : c.isDigit = true := by
  unfold natRepr at h
  split at h
  · simp only [show ("0" : String).data = ['0'] from rfl, List.mem_singleton] at h
    subst h; decide
  · exact natDigitsF_digits _ _ _ h

theorem natRepr_no_newline {n : Nat} {c : Char} (h : c ∈ (natRepr n).data) : c ≠ '\n' := by
  intro hc
  subst hc
  have := natRepr_digits h
  simp [Char.isDigit] at this

/-! ## C8: reply traceability -/

/-- C8. The `resolve` operation rejects a reply, before attempting any
remote mutation, exactly when the reply contains neither a word-bounded
7-40 char lowercase-hex token nor a `#<digits>` reference; "Fixed in
91a4699" and "See #42" pass, "Fixed it" is rejected with no mutation
attempted. -/
theorem resolve_traceability :
    (∀ tid reply rOk sOk,
      ((resolveCmd tid reply rOk sOk).2 = [] ∧ (resolveCmd tid reply rOk sOk).1 = .exits1)
        ↔ (searchSha reply = false ∧ searchIssueRef reply = false))
    ∧ validate_reply "Fixed in 91a4699" = true
    ∧ validate_reply "Fixed it" = false
    ∧ validate_reply "See #42" = true
    ∧ resolveCmd "T1" "Fixed it" true true = (.exits1, [])
    ∧ resolveCmd "T1" "Fixed in 91a4699" true true =
        (.ok, [.replyMutation "T1" "Fixed in 91a4699", .resolveMutation "T1"]) := by
  refine ⟨?_, by decide, by decide, by decide, by decide, by decide⟩
  intro tid reply rOk sOk
  unfold resolveCmd validate_reply
  cases hs : searchSha reply <;> cases hi : searchIssueRef reply <;>
    cases rOk <;> cases sOk <;> simp

/-! ## C9: sanitizer image handling -/

/-- C9 counterexample. The sanitizer in pr.py does not replace image
markup with a placeholder carrying the alt text: it deletes the span
outright, so the alt text is gone from the output. -/
theorem pr_sanitizer_drops_images :
    Pr.clean_body "![diagram](http://x/y.png)" = ""
    ∧ pyIn "diagram" (Pr.clean_body "before ![diagram](http://x/y.png) after") = false
    ∧ Pr.clean_body "before ![diagram](http://x/y.png) after" = "before after" := by
  refine ⟨by decide, by decide, by decide⟩

/-- C9 amended. The sanitizer of inventory_threads.py replaces plain
image markup and linked-image markup with a `[IMG:alt]` placeholder
carrying the alt text (the latter through the image rule followed by
the hyperlink rule), while the sanitizer of pr.py removes both spans
entirely and keeps no alt text. -/
theorem sanitizer_image_behaviour :
    Inv.clean_body "![alt](u)" = "[IMG:alt]"
    ∧ Inv.clean_body "[![alt](u)](v)" = "[IMG:alt]"
    ∧ Pr.clean_body "![alt](u)" = ""
    ∧ Pr.clean_body "[![alt](u)](v)" = "" := by
  refine ⟨by decide, by decide, by decide, by decide⟩

/-! ## C1: version store round-trip -/

theorem splitOnceL_nn (B : List Char) :
    ∀ T : List Char, inL ['\n', '\n'] (T ++ ['\n']) = false →
      splitOnceL ['\n', '\n'] (T ++ '\n' :: '\n' :: B) = (T, some B) := by
  intro T
  induction T with
  | nil =>
    intro _
    simp [splitOnceL, pfxL]
  | cons c T' ih =>
    intro h
    simp only [List.cons_append, inL, Bool.or_eq_true, not_or] at h
    rw [Bool.or_eq_false_iff] at h
    have hcond : pfxL ['\n', '\n'] (c :: (T' ++ '\n' :: '\n' :: B)) = false := by
      cases T' with
      | nil =>
        have := h.1
        simp only [List.nil_append, pfxL, Bool.and_eq_true, beq_iff_eq] at this ⊢
        exact this
      | cons d T'' =>
        have := h.1
        simp only [List.cons_append, pfxL, Bool.and_eq_true, beq_iff_eq] at this ⊢
        exact this
    simp only [List.cons_append, splitOnceL, hcond, if_neg, Bool.false_eq_true,
      not_false_eq_true]
    rw [if_neg (by simp [hcond])]
    simp [ih h.2]

/-- C1 counterexample. The claimed byte-identical round-trip fails for
a body with surrounding whitespace: saving title "feat: x (#7)" with
body " body text " and loading the version back by its identifier
returns the stripped body "body text", not the original bytes. -/
theorem roundtrip_strip_cex :
    loadVersion (save_msg_version (fun _ => "0123abcdef") "20250101-120000"
        VersionStore.empty "feat: x (#7)" " body text " "manual").2
      (save_msg_version (fun _ => "0123abcdef") "20250101-120000"
        VersionStore.empty "feat: x (#7)" " body text " "manual").1
      = some ("feat: x (#7)", ("body text", "v0123abc"))
    ∧ (" body text " : String) ≠ "body text" := ⟨by decide, by decide⟩

/-- C1 amended. Saving a message and loading it back by the returned
identifier restores the title and body byte-identically, provided the
title and body carry no leading or trailing whitespace (the loader
strips both parts) and the title contains no blank line (the loader
splits at the first blank line). In particular the round-trip holds for
`("feat: x (#7)", "body text")`. -/
theorem save_load_roundtrip (md5hex : String → String) (ts src t b : String)
    (store : VersionStore)
    (ht : pyStrip t = t) (hb : pyStrip b = b)
    (hnn : pyIn "\n\n" (t ++ "\n") = false) :
    loadVersion (save_msg_version md5hex ts store t b src).2
        (save_msg_version md5hex ts store t b src).1
      = some (t, (b, "v" ++ (save_msg_version md5hex ts store t b src).1)) := by
  unfold save_msg_version loadVersion
  simp only
  have hfind : pyIn (pyTake 7 (md5hex (t ++ "\n\n" ++ b)))
      (ts ++ "-" ++ src ++ "-" ++ pyTake 7 (md5hex (t ++ "\n\n" ++ b)) ++ ".md") = true := by
    show inL (pyTake 7 (md5hex (t ++ "\n\n" ++ b))).data
      ((((ts.data ++ "-".data) ++ src.data) ++ "-".data)
        ++ (pyTake 7 (md5hex (t ++ "\n\n" ++ b))).data ++ ".md".data) = true
    rw [List.append_assoc]
    exact inL_sandwich _ _ _
  simp only [List.find?_cons, hfind]
  have hsplit : splitOnce "\n\n" (t ++ "\n\n" ++ b) = (t, some b) := by
    unfold splitOnce
    have : (t ++ "\n\n" ++ b).data = t.data ++ '\n' :: '\n' :: b.data := by
      show (t.data ++ ['\n', '\n']) ++ b.data = _
      simp
    rw [show ("\n\n" : String).data = ['\n', '\n'] from rfl, this,
      splitOnceL_nn b.data t.data hnn]
    simp
  rw [hsplit]
  simp [ht, hb]

/-- C1 witness. -/
theorem save_load_roundtrip_witness :
    loadVersion (save_msg_version (fun _ => "0123abcdef") "20250101-120000"
        VersionStore.empty "feat: x (#7)" "body text" "manual").2
      (save_msg_version (fun _ => "0123abcdef") "20250101-120000"
        VersionStore.empty "feat: x (#7)" "body text" "manual").1
      = some ("feat: x (#7)", ("body text",
          "v" ++ (save_msg_version (fun _ => "0123abcdef") "20250101-120000"
            VersionStore.empty "feat: x (#7)" "body text" "manual").1)) :=
  save_load_roundtrip (fun _ => "0123abcdef") "20250101-120000" "manual"
    "feat: x (#7)" "body text" VersionStore.empty (by decide) (by decide) (by decide)

/-! ## C2: the history listing misses every saved version -/

/-- C2. `save_msg_version` writes files named
`{timestamp}-{source}-{hash}.md`, but the `history` command lists only
files matching the glob `msg-*.md` (and its own comment documents the
stem format `msg-timestamp-source-hash`), so a freshly saved version
never appears in the listing: the listing after a save equals the
listing before it. -/
theorem history_misses_saved_versions (md5hex : String → String)
    (store : VersionStore) (t b src : String) :
    historyListing (save_msg_version md5hex "20250101-120000" store t b src).2
      = historyListing store := by
  unfold historyListing save_msg_version
  simp only [List.map_cons]
  have hfalse :
      (pyStartsWith "msg-"
          ("20250101-120000" ++ "-" ++ src ++ "-" ++ pyTake 7 (md5hex (t ++ "\n\n" ++ b)) ++ ".md")
        && pyEndsWith ".md"
          ("20250101-120000" ++ "-" ++ src ++ "-" ++ pyTake 7 (md5hex (t ++ "\n\n" ++ b)) ++ ".md")
        && decide (7 ≤
          ("20250101-120000" ++ "-" ++ src ++ "-" ++ pyTake 7 (md5hex (t ++ "\n\n" ++ b)) ++ ".md").length))
      = false := rfl
  rw [List.filter_cons_of_neg (by rw [hfalse]; simp)]

/-! ## Concrete worlds used by the pipeline theorems -/

/-- An open PR numbered 9 with a semantically valid title. -/
def prOpen9 : PRDetails :=
  { title := "feat: x (#9)", body := none, commits := [], state := "OPEN"
    mergeable := "MERGEABLE", closingIssuesReferences := [] }

/-- A baseline collaborator assignment: fetch succeeds, editor aborts,
operator confirms, external merge succeeds. -/
def wBase : World :=
  { prDetails := some prOpen9, threads := [], aiMessage := ("", "")
    editResult := none, confirmAnswer := true, mergeExecOk := true
    timestamp := "20250101-120000", md5hex := fun _ => "abc1234def0" }

/-! ## C3: the edited title is never re-validated -/

/-- C3. With `--edit`, after the operator replaces the message by
"bogus\n\nnew body", the title "bogus" fails the semantic grammar for
PR 9, yet the merge run saves it as an `edit` version, proceeds, and
invokes the external merge with the invalid subject — the final
validation of the source runs before the edit hook, so no
re-validation prevents the merge. -/
theorem edited_title_not_revalidated :
    validate_semantic_title "bogus" 9 = false
    ∧ (mergeCmd { wBase with editResult := some "bogus\n\nnew body" }
        VersionStore.empty 9 { MergeFlags.default with edit := true }).1 = .merged
    ∧ Event.save "edit" "bogus" "new body" ∈
        (mergeCmd { wBase with editResult := some "bogus\n\nnew body" }
          VersionStore.empty 9 { MergeFlags.default with edit := true }).2.1
    ∧ Event.mergeExec 9 "bogus" "new body" ∈
        (mergeCmd { wBase with editResult := some "bogus\n\nnew body" }
          VersionStore.empty 9 { MergeFlags.default with edit := true }).2.1 := by
  refine ⟨by decide, by decide, by decide, by decide⟩

/-! ## C4: merge never consults the open review threads -/

/-- C4. On a PR with three unresolved, non-outdated review threads the
merge run presents no open-thread warning and no thread count —
`get_unresolved_threads` is never invoked by `merge` — and proceeds to
the external merge gated only by the generic confirmation prompt. -/
theorem merge_ignores_open_threads :
    get_unresolved_threads [⟨false, false⟩, ⟨false, false⟩, ⟨false, false⟩] = 3
    ∧ (mergeCmd { wBase with threads := [⟨false, false⟩, ⟨false, false⟩, ⟨false, false⟩] }
        VersionStore.empty 9 MergeFlags.default).1 = .merged
    ∧ ((mergeCmd { wBase with threads := [⟨false, false⟩, ⟨false, false⟩, ⟨false, false⟩] }
        VersionStore.empty 9 MergeFlags.default).2.1).all
        (fun e => match e with
          | .warnOpenThreads _ => false
          | _ => true) = true
    ∧ ((mergeCmd { wBase with threads := [⟨false, false⟩, ⟨false, false⟩, ⟨false, false⟩] }
        VersionStore.empty 9 MergeFlags.default).2.1).any
        (fun e => match e with
          | .confirm _ => true
          | _ => false) = true := by
  refine ⟨by decide, by decide, by decide, by decide⟩

/-! ## C7: fatality at the fetch stage -/

/-- A closed PR in a conflicting mergeability state. -/
def prClosed7 : PRDetails :=
  { title := "feat: x (#7)", body := none, commits := [], state := "CLOSED"
    mergeable := "CONFLICTING", closingIssuesReferences := [] }

/-- C7 counterexample. A PR whose snapshot is closed and conflicting is
not stopped at the fetch stage: the run reaches composition, saves a
version and shows the preview (here under `--dry-run`), because the
source never inspects the fetched `state` and `mergeable` fields. -/
theorem fetch_state_unchecked_cex :
    prClosed7.state = "CLOSED"
    ∧ prClosed7.mergeable = "CONFLICTING"
    ∧ (mergeCmd { wBase with prDetails := some prClosed7 } VersionStore.empty 7
        { MergeFlags.default with dry_run := true }).1 = .dryRun
    ∧ ((mergeCmd { wBase with prDetails := some prClosed7 } VersionStore.empty 7
        { MergeFlags.default with dry_run := true }).2.1).any
        (fun e => match e with
          | .preview _ _ => true
          | _ => false) = true
    ∧ ((mergeCmd { wBase with prDetails := some prClosed7 } VersionStore.empty 7
        { MergeFlags.default with dry_run := true }).2.2).files.length = 1 := by
  refine ⟨rfl, rfl, by decide, by decide, by decide⟩

/-- C7 amended. A failure of the fetch command itself (e.g. the PR does
not exist, so `gh pr view` exits nonzero) is fatal at the fetch stage:
the outcome is the fatal error, the trace holds only the fetch, and the
version store is untouched; no later stage is entered. The fetched
`state` and `mergeable` fields, however, are never checked. -/
theorem fetch_failure_fatal (w : World) (store : VersionStore) (prn : Nat)
    (fl : MergeFlags) (hh : fl.history_list = false) (hf : w.prDetails = none) :
    mergeCmd w store prn fl = (.fatal "Error fetching PR", [Event.fetch prn], store) := by
  unfold mergeCmd
  rw [hh, hf]
  simp

/-- C7 witness. -/
theorem fetch_failure_fatal_witness :
    mergeCmd { wBase with prDetails := none } VersionStore.empty 7 MergeFlags.default
      = (.fatal "Error fetching PR", [Event.fetch 7], VersionStore.empty) :=
  fetch_failure_fatal { wBase with prDetails := none } VersionStore.empty 7
    MergeFlags.default rfl rfl

/-! ## C10: the version store is mutated before confirmation -/

theorem save_msg_version_files (md5hex : String → String) (ts : String)
    (st : VersionStore) (t b src : String) :
    (save_msg_version md5hex ts st t b src).2.files
      = (ts ++ "-" ++ src ++ "-" ++ pyTake 7 (md5hex (t ++ "\n\n" ++ b)) ++ ".md",
          t ++ "\n\n" ++ b) :: st.files := rfl

theorem save_msg_version_latest (md5hex : String → String) (ts : String)
    (st : VersionStore) (t b src : String) :
    (save_msg_version md5hex ts st t b src).2.latestPtr = some (t ++ "\n\n" ++ b) := rfl

theorem editStage_files (w : World) (fl : MergeFlags) (st1 : VersionStore) (mt mb : String) :
    ∃ nf, (editStage w fl st1 mt mb).2.2.1.files = nf ++ st1.files := by
  unfold editStage
  dsimp only
  split
  · split
    · split
      · exact ⟨[_], rfl⟩
      · exact ⟨[], rfl⟩
    · exact ⟨[], rfl⟩
  · exact ⟨[], rfl⟩

theorem editStage_latest (w : World) (fl : MergeFlags) (st1 : VersionStore) (mt mb : String)
    (c0 : String) (h : st1.latestPtr = some c0) :
    ∃ c, (editStage w fl st1 mt mb).2.2.1.latestPtr = some c := by
  unfold editStage
  dsimp only
  split
  · split
    · split
      · exact ⟨_, rfl⟩
      · exact ⟨c0, h⟩
    · exact ⟨c0, h⟩
  · exact ⟨c0, h⟩

theorem editStage_events (w : World) (fl : MergeFlags) (st1 : VersionStore) (mt mb : String) :
    ∀ e ∈ (editStage w fl st1 mt mb).2.2.2,
      ∀ a s2 b2, e ≠ Event.mergeExec a s2 b2 := by
  unfold editStage
  dsimp only
  split
  · split
    · split
      · intro e he a s2 b2
        simp only [List.mem_cons, List.not_mem_nil, or_false] at he
        rcases he with h | h <;> subst h <;> simp
      · intro e he a s2 b2
        simp only [List.mem_singleton] at he
        subst he; simp
    · intro e he a s2 b2
      simp only [List.mem_singleton] at he
      subst he; simp
  · intro e he
    simp at he

/-- C10. Every merge run that passes title validation saves a new
message version and overwrites the `latest` pointer right after
validation — before the preview, before any confirmation prompt and
before any merge attempt; in particular a `--dry-run` invocation, which
never reaches the external merge call, still mutates the on-disk
version store. -/
theorem merge_saves_before_confirm (w : World) (store : VersionStore) (prn : Nat)
    (fl : MergeFlags) (pr : PRDetails) (src t b : String)
    (hh : fl.history_list = false)
    (hpr : w.prDetails = some pr)
    (hinit : initialMessage w store pr prn fl = .ok (t, b, src))
    (hv : validate_semantic_title t prn = true) :
    (∃ rest, (mergeCmd w store prn fl).2.1
        = Event.fetch prn :: Event.save src t (composeFooters pr prn fl.relates_to b) :: rest)
    ∧ (∃ newFiles, newFiles ≠ []
        ∧ (mergeCmd w store prn fl).2.2.files = newFiles ++ store.files)
    ∧ (∃ c, (mergeCmd w store prn fl).2.2.latestPtr = some c)
    ∧ (fl.dry_run = true → (mergeCmd w store prn fl).1 = .dryRun
        ∧ ∀ a s2 b2, Event.mergeExec a s2 b2 ∉ (mergeCmd w store prn fl).2.1) := by
  simp only [mergeCmd, hh, Bool.false_eq_true, if_false, hpr, hinit, hv, Bool.not_true]
  rcases hES : editStage w fl (save_msg_version w.md5hex w.timestamp store t
      (composeFooters pr prn fl.relates_to b) src).2 t (composeFooters pr prn fl.relates_to b)
    with ⟨mt2, mb2, store2, evEdit⟩
  have hfiles : ∃ newFiles, newFiles ≠ [] ∧ store2.files = newFiles ++ store.files := by
    obtain ⟨nf, hnf⟩ := editStage_files w fl _ t (composeFooters pr prn fl.relates_to b)
    rw [hES] at hnf
    simp only at hnf
    rw [save_msg_version_files] at hnf
    refine ⟨nf ++ [(w.timestamp ++ "-" ++ src ++ "-"
      ++ pyTake 7 (w.md5hex (t ++ "\n\n" ++ composeFooters pr prn fl.relates_to b)) ++ ".md",
      t ++ "\n\n" ++ composeFooters pr prn fl.relates_to b)], by simp, by simp [hnf]⟩
  have hlatest : ∃ c, store2.latestPtr = some c := by
    obtain ⟨c, hc⟩ := editStage_latest w fl _ t (composeFooters pr prn fl.relates_to b)
      (t ++ "\n\n" ++ composeFooters pr prn fl.relates_to b) (save_msg_version_latest _ _ _ _ _ _)
    rw [hES] at hc
    exact ⟨c, hc⟩
  have hevEdit : ∀ e ∈ evEdit, ∀ a s2 b2, e ≠ Event.mergeExec a s2 b2 := by
    have h := editStage_events w fl (save_msg_version w.md5hex w.timestamp store t
      (composeFooters pr prn fl.relates_to b) src).2 t (composeFooters pr prn fl.relates_to b)
    rw [hES] at h
    exact h
  by_cases hdry : fl.dry_run = true
  · simp only [hdry, if_true]
    refine ⟨⟨evEdit ++ [Event.preview mt2 mb2], by simp⟩, hfiles, hlatest,
      fun _ => ⟨by simp, ?_⟩⟩
    intro a s2 b2 hmem
    simp at hmem
    exact absurd rfl (hevEdit _ hmem a s2 b2)
  · simp only [hdry, Bool.false_eq_true, if_false]
    cases hc : w.confirmAnswer <;> cases hk : w.mergeExecOk <;>
      simp only [hc, hk, Bool.not_true, Bool.not_false, if_true, if_false, Bool.false_eq_true,
        Bool.true_eq_false]
    · refine ⟨⟨evEdit ++ [Event.preview mt2 mb2,
            Event.confirm ("Proceed with squash merge of PR #" ++ natRepr prn ++ "?")],
            by simp⟩, hfiles, hlatest, fun hcontr => hcontr.elim⟩
    · refine ⟨⟨evEdit ++ [Event.preview mt2 mb2,
            Event.confirm ("Proceed with squash merge of PR #" ++ natRepr prn ++ "?")],
            by simp⟩, hfiles, hlatest, fun hcontr => hcontr.elim⟩
    · refine ⟨⟨evEdit ++ [Event.preview mt2 mb2,
            Event.confirm ("Proceed with squash merge of PR #" ++ natRepr prn ++ "?"),
            Event.mergeExec prn mt2 mb2],
            by simp⟩, hfiles, hlatest, fun hcontr => hcontr.elim⟩
    · refine ⟨⟨evEdit ++ [Event.preview mt2 mb2,
            Event.confirm ("Proceed with squash merge of PR #" ++ natRepr prn ++ "?"),
            Event.mergeExec prn mt2 mb2],
            by simp⟩, hfiles, hlatest, fun hcontr => hcontr.elim⟩

/-- C10 witness. -/
theorem merge_saves_before_confirm_witness :
    (∃ rest, (mergeCmd wBase VersionStore.empty 9
        { MergeFlags.default with dry_run := true }).2.1
        = Event.fetch 9 :: Event.save "manual" "feat: x (#9)"
            (composeFooters prOpen9 9 [] "PR #9: feat: x (#9)\n\n## Changes\n") :: rest)
    ∧ (∃ newFiles, newFiles ≠ []
        ∧ (mergeCmd wBase VersionStore.empty 9
            { MergeFlags.default with dry_run := true }).2.2.files
          = newFiles ++ VersionStore.empty.files)
    ∧ (∃ c, (mergeCmd wBase VersionStore.empty 9
        { MergeFlags.default with dry_run := true }).2.2.latestPtr = some c)
    ∧ ((true : Bool) = true → (mergeCmd wBase VersionStore.empty 9
          { MergeFlags.default with dry_run := true }).1 = .dryRun
        ∧ ∀ a s2 b2, Event.mergeExec a s2 b2 ∉ (mergeCmd wBase VersionStore.empty 9
            { MergeFlags.default with dry_run := true }).2.1) :=
  merge_saves_before_confirm wBase VersionStore.empty 9
    { MergeFlags.default with dry_run := true } prOpen9 "manual" "feat: x (#9)"
    "PR #9: feat: x (#9)\n\n## Changes\n" rfl rfl rfl (by decide)

/-! ## C6: footer-composition idempotence -/

theorem fixStep_mono {s acc : String} (i : Issue) (h : pyIn s acc = true) :
    pyIn s (fixStep acc i) = true := by
  unfold fixStep
  cases truthyNum i.number with
  | some n => exact addUnless_mono _ _ h
  | none => exact h

theorem foldl_fixStep_mono {s : String} :
    ∀ (l : List Issue) (b : String), pyIn s b = true → pyIn s (l.foldl fixStep b) = true
  | [], _, h => h
  | i :: rest, b, h => foldl_fixStep_mono rest (fixStep b i) (fixStep_mono i h)

theorem autoStep_mono {s acc : String} (num : String) (h : pyIn s acc = true) :
    pyIn s (autoStep acc num) = true := addUnless_mono _ _ h

theorem foldl_autoStep_mono {s : String} :
    ∀ (l : List String) (b : String), pyIn s b = true → pyIn s (l.foldl autoStep b) = true
  | [], _, h => h
  | x :: rest, b, h => foldl_autoStep_mono rest (autoStep b x) (autoStep_mono x h)

theorem cliStep_mono {s acc : String} (auto : List String) (x : String)
    (h : pyIn s acc = true) : pyIn s (cliStep auto acc x) = true := by
  unfold cliStep
  dsimp only
  split
  · exact h
  · exact addUnless_mono _ _ h

theorem foldl_cliStep_mono {s : String} (auto : List String) :
    ∀ (l : List String) (b : String), pyIn s b = true →
      pyIn s (l.foldl (cliStep auto) b) = true
  | [], _, h => h
  | x :: rest, b, h => foldl_cliStep_mono auto rest (cliStep auto b x) (cliStep_mono auto x h)

theorem foldl_fixStep_estab :
    ∀ (l : List Issue) (b : String) (n : Nat), (∃ i ∈ l, truthyNum i.number = some n) →
      pyIn ("Fixes #" ++ natRepr n) (l.foldl fixStep b) = true
  | [], _, _, h => absurd h (by simp)
  | i :: rest, b, n, h => by
    rcases h with ⟨j, hj, hjn⟩
    rcases List.mem_cons.mp hj with rfl | hjrest
    · apply foldl_fixStep_mono rest
      unfold fixStep
      rw [hjn]
      exact addUnless_pre _ "\n" b
    · exact foldl_fixStep_estab rest (fixStep b i) n ⟨j, hjrest, hjn⟩

theorem foldl_autoStep_estab :
    ∀ (l : List String) (b : String) (num : String), num ∈ l →
      pyIn ("Relates to #" ++ num) (l.foldl autoStep b) = true
  | [], _, _, h => absurd h (by simp)
  | x :: rest, b, num, h => by
    rcases List.mem_cons.mp h with rfl | hrest
    · apply foldl_autoStep_mono rest
      unfold autoStep
      exact addUnless_pre _ "\n" b
    · exact foldl_autoStep_estab rest (autoStep b x) num hrest

theorem foldl_cliStep_estab (auto : List String) :
    ∀ (l : List String) (b : String) (x : String), x ∈ l →
      auto.contains (pyLStripHash (pyStrip x)) = false →
      pyIn ("Relates to #" ++ pyLStripHash (pyStrip x)) (l.foldl (cliStep auto) b) = true
  | [], _, _, h, _ => absurd h (by simp)
  | y :: rest, b, x, h, hcx => by
    rcases List.mem_cons.mp h with rfl | hrest
    · apply foldl_cliStep_mono auto rest
      unfold cliStep
      dsimp only
      rw [if_neg (by rw [hcx]; simp)]
      exact addUnless_pre _ "\n" b
    · exact foldl_cliStep_estab auto rest (cliStep auto b y) x hrest hcx

theorem foldl_fixStep_id :
    ∀ (l : List Issue) (b : String),
      (∀ i ∈ l, ∀ n, truthyNum i.number = some n →
        pyIn ("Fixes #" ++ natRepr n) b = true) →
      l.foldl fixStep b = b
  | [], _, _ => rfl
  | i :: rest, b, h => by
    have hstep : fixStep b i = b := by
      unfold fixStep
      cases htn : truthyNum i.number with
      | some n => exact addUnless_id _ (h i (by simp) n htn)
      | none => rfl
    rw [List.foldl_cons, hstep]
    exact foldl_fixStep_id rest b (fun j hj => h j (List.mem_cons_of_mem _ hj))

theorem foldl_autoStep_id :
    ∀ (l : List String) (b : String),
      (∀ num ∈ l, pyIn ("Relates to #" ++ num) b = true) →
      l.foldl autoStep b = b
  | [], _, _ => rfl
  | x :: rest, b, h => by
    have hstep : autoStep b x = b := addUnless_id _ (h x (by simp))
    rw [List.foldl_cons, hstep]
    exact foldl_autoStep_id rest b (fun y hy => h y (List.mem_cons_of_mem _ hy))

theorem foldl_cliStep_id (auto : List String) :
    ∀ (l : List String) (b : String),
      (∀ x ∈ l, auto.contains (pyLStripHash (pyStrip x)) = true ∨
        pyIn ("Relates to #" ++ pyLStripHash (pyStrip x)) b = true) →
      l.foldl (cliStep auto) b = b
  | [], _, _ => rfl
  | x :: rest, b, h => by
    have hstep : cliStep auto b x = b := by
      unfold cliStep
      dsimp only
      rcases h x (by simp) with hc | hin
      · rw [if_pos hc]
      · split
        · rfl
        · exact addUnless_id _ hin
    rw [List.foldl_cons, hstep]
    exact foldl_cliStep_id auto rest b (fun y hy => h y (List.mem_cons_of_mem _ hy))

theorem appendFixes_mono {s b : String} (L : List Issue) (h : pyIn s b = true) :
    pyIn s (appendFixes L b) = true := by
  unfold appendFixes
  split
  · exact h
  · exact foldl_fixStep_mono L _ (addUnless_mono _ _ h)

theorem appendFixes_heading {b : String} (L : List Issue) (hL : L.isEmpty = false) :
    pyIn "## Fixes" (appendFixes L b) = true := by
  unfold appendFixes
  rw [if_neg (by simp [hL])]
  exact foldl_fixStep_mono L _ (addUnless_wrap "## Fixes" "\n\n" "\n" b)

theorem appendFixes_item {b : String} (L : List Issue) (n : Nat)
    (hn : ∃ i ∈ L, truthyNum i.number = some n) :
    pyIn ("Fixes #" ++ natRepr n) (appendFixes L b) = true := by
  unfold appendFixes
  rw [if_neg (by rcases hn with ⟨i, hi, _⟩; cases L <;> simp_all)]
  exact foldl_fixStep_estab L _ n hn

theorem appendFixes_id {b : String} (L : List Issue)
    (hhead : L.isEmpty = false → pyIn "## Fixes" b = true)
    (hitems : ∀ i ∈ L, ∀ n, truthyNum i.number = some n →
      pyIn ("Fixes #" ++ natRepr n) b = true) :
    appendFixes L b = b := by
  unfold appendFixes
  split
  · rfl
  · next hL =>
    rw [addUnless_id _ (hhead (by simpa using hL))]
    exact foldl_fixStep_id L b hitems

theorem appendAutoRelated_mono {s b : String} (A : List String) (h : pyIn s b = true) :
    pyIn s (appendAutoRelated A b) = true := by
  unfold appendAutoRelated
  split
  · exact h
  · exact foldl_autoStep_mono A _ (addUnless_mono _ _ h)

theorem appendAutoRelated_heading {b : String} (A : List String) (hA : A.isEmpty = false) :
    pyIn "## Related Issues" (appendAutoRelated A b) = true := by
  unfold appendAutoRelated
  rw [if_neg (by simp [hA])]
  exact foldl_autoStep_mono A _ (addUnless_wrap "## Related Issues" "\n\n" "\n" b)

theorem appendAutoRelated_item {b : String} (A : List String) (num : String)
    (hnum : num ∈ A) : pyIn ("Relates to #" ++ num) (appendAutoRelated A b) = true := by
  unfold appendAutoRelated
  rw [if_neg (by cases A <;> simp_all)]
  exact foldl_autoStep_estab A _ num hnum

theorem appendAutoRelated_id {b : String} (A : List String)
    (hhead : A.isEmpty = false → pyIn "## Related Issues" b = true)
    (hitems : ∀ num ∈ A, pyIn ("Relates to #" ++ num) b = true) :
    appendAutoRelated A b = b := by
  unfold appendAutoRelated
  split
  · rfl
  · next hA =>
    rw [addUnless_id _ (hhead (by simpa using hA))]
    exact foldl_autoStep_id A b hitems

theorem appendCliRelated_mono {s b : String} (rel A : List String) (h : pyIn s b = true) :
    pyIn s (appendCliRelated rel A b) = true := by
  unfold appendCliRelated
  split
  · exact h
  · exact foldl_cliStep_mono A rel _ (addUnless_mono _ _ h)

theorem appendCliRelated_heading {b : String} (rel A : List String)
    (hrel : rel.isEmpty = false) :
    pyIn "## Related Issues" (appendCliRelated rel A b) = true := by
  unfold appendCliRelated
  rw [if_neg (by simp [hrel])]
  exact foldl_cliStep_mono A rel _ (addUnless_wrap "## Related Issues" "\n\n" "\n" b)

theorem appendCliRelated_item {b : String} (rel A : List String) (x : String)
    (hx : x ∈ rel) (hcx : A.contains (pyLStripHash (pyStrip x)) = false) :
    pyIn ("Relates to #" ++ pyLStripHash (pyStrip x)) (appendCliRelated rel A b) = true := by
  unfold appendCliRelated
  rw [if_neg (by cases rel <;> simp_all)]
  exact foldl_cliStep_estab A rel _ x hx hcx

theorem appendCliRelated_id {b : String} (rel A : List String)
    (hhead : rel.isEmpty = false → pyIn "## Related Issues" b = true)
    (hitems : ∀ x ∈ rel, A.contains (pyLStripHash (pyStrip x)) = true ∨
      pyIn ("Relates to #" ++ pyLStripHash (pyStrip x)) b = true) :
    appendCliRelated rel A b = b := by
  unfold appendCliRelated
  split
  · rfl
  · next hrel =>
    rw [addUnless_id _ (hhead (by simpa using hrel))]
    exact foldl_cliStep_id A rel b hitems

/-- C6. Footer composition is idempotent: once the Fixes and Related
Issues footers have been composed onto a body, re-running the footer
composition (with the same snapshot and `--relates-to` arguments)
returns the body byte-identically — every heading and every
"Fixes #N"/"Relates to #N" line is guarded by a substring check that
succeeds after the first pass, so no line is duplicated. -/
theorem composeFooters_idem (pr : PRDetails) (prn : Nat) (rel : List String) (b : String) :
    composeFooters pr prn rel (composeFooters pr prn rel b) = composeFooters pr prn rel b := by
  have hBdef : composeFooters pr prn rel b
      = appendCliRelated rel ((generate_merge_body pr prn).2)
          (appendAutoRelated ((generate_merge_body pr prn).2)
            (appendFixes pr.closingIssuesReferences b)) := rfl
  show appendCliRelated rel ((generate_merge_body pr prn).2)
      (appendAutoRelated ((generate_merge_body pr prn).2)
        (appendFixes pr.closingIssuesReferences (composeFooters pr prn rel b)))
    = composeFooters pr prn rel b
  have h1 : appendFixes pr.closingIssuesReferences (composeFooters pr prn rel b)
      = composeFooters pr prn rel b := by
    apply appendFixes_id
    · intro hne
      rw [hBdef]
      exact appendCliRelated_mono _ _ (appendAutoRelated_mono _
        (appendFixes_heading _ hne))
    · intro i hi n hn
      rw [hBdef]
      exact appendCliRelated_mono _ _ (appendAutoRelated_mono _
        (appendFixes_item _ n ⟨i, hi, hn⟩))
  rw [h1]
  have h2 : appendAutoRelated ((generate_merge_body pr prn).2) (composeFooters pr prn rel b)
      = composeFooters pr prn rel b := by
    apply appendAutoRelated_id
    · intro hne
      rw [hBdef]
      exact appendCliRelated_mono _ _ (appendAutoRelated_heading _ hne)
    · intro num hnum
      rw [hBdef]
      exact appendCliRelated_mono _ _ (appendAutoRelated_item _ num hnum)
  rw [h2]
  apply appendCliRelated_id
  · intro hne
    rw [hBdef]
    exact appendCliRelated_heading _ _ hne
  · intro x hx
    by_cases hcx : ((generate_merge_body pr prn).2).contains (pyLStripHash (pyStrip x)) = true
    · exact Or.inl hcx
    · right
      rw [hBdef]
      exact appendCliRelated_item _ _ x hx (by simpa using hcx)

/-! ## Line-level lemmas for the composed body (C5) -/

theorem linesL_ne_nil : ∀ A : List Char, linesL A ≠ []
  | [] => by simp [linesL]
  | c :: rest => by
    simp only [linesL]
    split
    · simp
    · split
      · simp
      · simp

theorem linesL_append_newline : ∀ A B : List Char, linesL (A ++ '\n' :: B) = linesL A ++ linesL B
  | [], B => by simp [linesL]
  | c :: A', B => by
    by_cases hcn : c = '\n'
    · subst hcn
      simp [linesL, linesL_append_newline A' B]
    · have hne := linesL_ne_nil A'
      cases hA : linesL A' with
      | nil => exact absurd hA hne
      | cons l ls =>
        simp only [List.cons_append, linesL, if_neg hcn, List.append_eq]
        rw [linesL_append_newline A' B, hA]
        simp

theorem linesL_no_newline : ∀ A : List Char, (∀ c ∈ A, c ≠ '\n') → linesL A = [A]
  | [], _ => rfl
  | c :: A', h => by
    simp only [linesL, if_neg (h c (by simp))]
    rw [linesL_no_newline A' (fun d hd => h d (List.mem_cons_of_mem _ hd))]

theorem linesL_joinN : ∀ (p : List Char) (ps : List (List Char)),
    linesL (joinN (p :: ps)) = linesL p ++ ps.flatMap linesL
  | p, [] => by simp [joinN]
  | p, q :: qs => by
    simp only [joinN, linesL_append_newline, linesL_joinN q qs, List.flatMap_cons,
      List.append_assoc]

theorem linesL_joinLines (p : String) (ps : List String) :
    linesL (joinLines (p :: ps)).data = (p :: ps).flatMap (fun E => linesL E.data) := by
  show linesL (joinN (p.data :: ps.map String.data)) = _
  rw [linesL_joinN, List.flatMap_cons]
  congr 1
  induction ps with
  | nil => rfl
  | cons q qs ih => simp only [List.map_cons, List.flatMap_cons, ih]

theorem addUnless_lines_mono {l : List Char} (nd a b : String) (r : List Char)
    (ha : a.data = '\n' :: r) (h : l ∈ linesL b.data) :
    l ∈ linesL (addUnless nd a b).data := by
  unfold addUnless
  split
  · exact h
  · show l ∈ linesL (b.data ++ a.data)
    rw [ha, linesL_append_newline]
    exact List.mem_append_left _ h

theorem addUnless_lines_sub {l : List Char} (nd a b : String) (r : List Char)
    (ha : a.data = '\n' :: r) (h : l ∈ linesL (addUnless nd a b).data) :
    l ∈ linesL b.data ∨ l ∈ linesL r := by
  unfold addUnless at h
  split at h
  · exact Or.inl h
  · rw [show (b ++ a).data = b.data ++ a.data from rfl, ha, linesL_append_newline] at h
    exact List.mem_append.mp h

theorem fixStep_lines_mono {l : List Char} (b : String) (i : Issue)
    (h : l ∈ linesL b.data) : l ∈ linesL (fixStep b i).data := by
  unfold fixStep
  cases truthyNum i.number with
  | some n => exact addUnless_lines_mono _ _ _ ("Fixes #" ++ natRepr n).data rfl h
  | none => exact h

theorem foldl_fixStep_lines_mono {l : List Char} :
    ∀ (L : List Issue) (b : String), l ∈ linesL b.data →
      l ∈ linesL (L.foldl fixStep b).data
  | [], _, h => h
  | i :: rest, b, h => foldl_fixStep_lines_mono rest (fixStep b i) (fixStep_lines_mono b i h)

theorem foldl_autoStep_lines_mono {l : List Char} :
    ∀ (L : List String) (b : String), l ∈ linesL b.data →
      l ∈ linesL (L.foldl autoStep b).data
  | [], _, h => h
  | x :: rest, b, h =>
    foldl_autoStep_lines_mono rest (autoStep b x)
      (addUnless_lines_mono _ _ _ ("Relates to #" ++ x).data rfl h)

theorem cliStep_lines_mono {l : List Char} (auto : List String) (b : String) (x : String)
    (h : l ∈ linesL b.data) : l ∈ linesL (cliStep auto b x).data := by
  unfold cliStep
  dsimp only
  split
  · exact h
  · exact addUnless_lines_mono _ _ _ ("Relates to #" ++ pyLStripHash (pyStrip x)).data rfl h

theorem foldl_cliStep_lines_mono {l : List Char} (auto : List String) :
    ∀ (L : List String) (b : String), l ∈ linesL b.data →
      l ∈ linesL (L.foldl (cliStep auto) b).data
  | [], _, h => h
  | x :: rest, b, h =>
    foldl_cliStep_lines_mono auto rest (cliStep auto b x) (cliStep_lines_mono auto b x h)

theorem composeFooters_lines_mono {l : List Char} (pr : PRDetails) (prn : Nat)
    (rel : List String) (b : String) (h : l ∈ linesL b.data) :
    l ∈ linesL (composeFooters pr prn rel b).data := by
  show l ∈ linesL (appendCliRelated rel _ (appendAutoRelated _ (appendFixes _ b))).data
  have h1 : l ∈ linesL (appendFixes pr.closingIssuesReferences b).data := by
    unfold appendFixes
    split
    · exact h
    · exact foldl_fixStep_lines_mono _ _
        (addUnless_lines_mono _ _ _ ('\n' :: "## Fixes".data ++ ['\n']) rfl h)
  have h2 : l ∈ linesL (appendAutoRelated ((generate_merge_body pr prn).2)
      (appendFixes pr.closingIssuesReferences b)).data := by
    unfold appendAutoRelated
    split
    · exact h1
    · exact foldl_autoStep_lines_mono _ _
        (addUnless_lines_mono _ _ _ ('\n' :: "## Related Issues".data ++ ['\n']) rfl h1)
  unfold appendCliRelated
  split
  · exact h2
  · exact foldl_cliStep_lines_mono _ _ _
      (addUnless_lines_mono _ _ _ ('\n' :: "## Related Issues".data ++ ['\n']) rfl h2)

theorem foldl_autoStep_lines_sub {l : List Char} :
    ∀ (L : List String) (b : String), l ∈ linesL (L.foldl autoStep b).data →
      l ∈ linesL b.data ∨ ∃ x ∈ L, l ∈ linesL ("Relates to #" ++ x).data
  | [], _, h => Or.inl h
  | x :: rest, b, h => by
    rcases foldl_autoStep_lines_sub rest (autoStep b x) h with h1 | ⟨y, hy, hl⟩
    · rcases addUnless_lines_sub _ _ _ ("Relates to #" ++ x).data rfl h1 with h2 | h2
      · exact Or.inl h2
      · exact Or.inr ⟨x, by simp, h2⟩
    · exact Or.inr ⟨y, List.mem_cons_of_mem _ hy, hl⟩

theorem foldl_cliStep_lines_sub {l : List Char} (auto : List String) :
    ∀ (L : List String) (b : String), l ∈ linesL (L.foldl (cliStep auto) b).data →
      l ∈ linesL b.data
        ∨ ∃ x ∈ L, l ∈ linesL ("Relates to #" ++ pyLStripHash (pyStrip x)).data
  | [], _, h => Or.inl h
  | x :: rest, b, h => by
    rcases foldl_cliStep_lines_sub auto rest (cliStep auto b x) h with h1 | ⟨y, hy, hl⟩
    · have h2 : l ∈ linesL b.data
          ∨ l ∈ linesL ("Relates to #" ++ pyLStripHash (pyStrip x)).data := by
        revert h1
        unfold cliStep
        dsimp only
        split
        · exact Or.inl
        · exact fun h1 =>
            addUnless_lines_sub _ _ _ ("Relates to #" ++ pyLStripHash (pyStrip x)).data rfl h1
      rcases h2 with h2 | h2
      · exact Or.inl h2
      · exact Or.inr ⟨x, by simp, h2⟩
    · exact Or.inr ⟨y, List.mem_cons_of_mem _ hy, hl⟩

theorem appendAutoRelated_lines_sub {l : List Char} (A : List String) (b : String)
    (h : l ∈ linesL (appendAutoRelated A b).data) :
    l ∈ linesL b.data ∨ l = [] ∨ l = "## Related Issues".data
      ∨ ∃ x ∈ A, l ∈ linesL ("Relates to #" ++ x).data := by
  unfold appendAutoRelated at h
  split at h
  · exact Or.inl h
  · rcases foldl_autoStep_lines_sub A _ h with h1 | hx
    · rcases addUnless_lines_sub _ _ _ ('\n' :: "## Related Issues".data ++ ['\n']) rfl h1
        with h2 | h2
      · exact Or.inl h2
      · rw [show linesL ('\n' :: "## Related Issues".data ++ ['\n'])
            = [[], "## Related Issues".data, []] by decide] at h2
        simp only [List.mem_cons, List.not_mem_nil, or_false] at h2
        rcases h2 with h2 | h2 | h2 <;> simp [h2]
    · exact Or.inr (Or.inr (Or.inr hx))

theorem appendCliRelated_lines_sub {l : List Char} (rel A : List String) (b : String)
    (h : l ∈ linesL (appendCliRelated rel A b).data) :
    l ∈ linesL b.data ∨ l = [] ∨ l = "## Related Issues".data
      ∨ ∃ x ∈ rel, l ∈ linesL ("Relates to #" ++ pyLStripHash (pyStrip x)).data := by
  unfold appendCliRelated at h
  split at h
  · exact Or.inl h
  · rcases foldl_cliStep_lines_sub A rel _ h with h1 | hx
    · rcases addUnless_lines_sub _ _ _ ('\n' :: "## Related Issues".data ++ ['\n']) rfl h1
        with h2 | h2
      · exact Or.inl h2
      · rw [show linesL ('\n' :: "## Related Issues".data ++ ['\n'])
            = [[], "## Related Issues".data, []] by decide] at h2
        simp only [List.mem_cons, List.not_mem_nil, or_false] at h2
        rcases h2 with h2 | h2 | h2 <;> simp [h2]
    · exact Or.inr (Or.inr (Or.inr hx))

/-! ## The auto-detected related numbers are digit strings (C5) -/

theorem parseHashDigits_digits : ∀ {cs ds r : List Char},
    parseHashDigits cs = some (ds, r) → ∀ c ∈ ds, c.isDigit = true := by
  intro cs ds r h c hc
  unfold parseHashDigits at h
  split at h
  · dsimp only at h
    split at h
    · exact absurd h (by simp)
    · simp only [Option.some.injEq, Prod.mk.injEq] at h
      obtain ⟨h1, _⟩ := h
      subst h1
      exact List.mem_takeWhile_imp hc
  · exact absurd h (by simp)

theorem matchRelAt_digits {cs ds r : List Char}
    (h : matchRelAt cs = some (ds, r)) : ∀ c ∈ ds, c.isDigit = true := by
  unfold matchRelAt at h
  split at h
  · exact absurd h (by simp)
  · dsimp only at h
    split at h
    · exact absurd h (by simp)
    · split at h
      · next res heq =>
        simp only [Option.some.injEq] at h
        subst h
        split at heq
        · split at heq
          · exact absurd heq (by simp)
          · exact parseHashDigits_digits heq
        · exact absurd heq (by simp)
      · exact parseHashDigits_digits h

theorem findRelAux_digits : ∀ (fuel : Nat) (cs : List Char) (ds : List Char),
    ds ∈ findRelAux fuel cs → ∀ c ∈ ds, c.isDigit = true := by
  intro fuel
  induction fuel with
  | zero => intro cs ds h; simp [findRelAux] at h
  | succ f ih =>
    intro cs ds h
    cases cs with
    | nil => simp [findRelAux] at h
    | cons c0 rest =>
      unfold findRelAux at h
      split at h
      · next ds0 after heq =>
        rcases List.mem_cons.mp h with rfl | hmem
        · exact matchRelAt_digits heq
        · exact ih after ds hmem
      · exact ih rest ds h

theorem findRelated_digits {s : String} {x : String} (h : x ∈ findRelated s) :
    ∀ c ∈ x.data, c.isDigit = true := by
  unfold findRelated at h
  rw [List.mem_map] at h
  obtain ⟨ds, hds, rfl⟩ := h
  exact findRelAux_digits _ _ ds hds

theorem mem_insertByNat {z x : String} : ∀ {l : List String},
    z ∈ insertByNat x l → z = x ∨ z ∈ l := by
  intro l
  induction l with
  | nil =>
    intro h
    unfold insertByNat at h
    exact Or.inl (List.mem_singleton.mp h)
  | cons y ys ih =>
    intro h
    unfold insertByNat at h
    split at h
    · rcases List.mem_cons.mp h with rfl | h2
      · exact Or.inr (by simp)
      · rcases ih h2 with h3 | h3
        · exact Or.inl h3
        · exact Or.inr (List.mem_cons_of_mem _ h3)
    · rcases List.mem_cons.mp h with rfl | h2
      · exact Or.inl rfl
      · exact Or.inr h2

theorem mem_foldl_insertByNat : ∀ (l acc : List String) {z : String},
    z ∈ l.foldl (fun acc x => insertByNat x acc) acc → z ∈ acc ∨ z ∈ l
  | [], _, _, h => Or.inl h
  | x :: rest, acc, z, h => by
    rcases mem_foldl_insertByNat rest (insertByNat x acc) h with h1 | h1
    · rcases mem_insertByNat h1 with rfl | h2
      · exact Or.inr (by simp)
      · exact Or.inl h2
    · exact Or.inr (List.mem_cons_of_mem _ h1)

theorem mem_sortByNat {z : String} {l : List String} (h : z ∈ sortByNat l) : z ∈ l := by
  unfold sortByNat at h
  rcases mem_foldl_insertByNat l [] h with h1 | h1
  · simp at h1
  · exact h1

theorem mem_dedupAux : ∀ (seen l : List String) {z : String}, z ∈ dedupAux seen l → z ∈ l
  | _, [], _, h => by simp [dedupAux] at h
  | seen, x :: rest, z, h => by
    unfold dedupAux at h
    split at h
    · exact List.mem_cons_of_mem _ (mem_dedupAux seen rest h)
    · rcases List.mem_cons.mp h with rfl | h2
      · simp
      · exact List.mem_cons_of_mem _ (mem_dedupAux _ rest h2)

theorem autoRelatedOf_digits {pr : PRDetails} {x : String} (h : x ∈ autoRelatedOf pr) :
    ∀ c ∈ x.data, c.isDigit = true := by
  unfold autoRelatedOf at h
  have h1 := mem_dedupAux _ _ (mem_sortByNat h)
  have h2 := List.mem_filter.mp h1
  exact findRelated_digits h2.1

theorem digit_ne_newline {c : Char} (h : c.isDigit = true) : c ≠ '\n' := by
  intro hc
  subst hc
  simp [Char.isDigit] at h

/-! ## C5: Fixes-footer completeness -/

theorem mem_linesL_joinLines {E : String} {L : List String} (hE : E ∈ L)
    (hnl : ∀ c ∈ E.data, c ≠ '\n') :
    E.data ∈ linesL (joinLines L).data := by
  cases L with
  | nil => simp at hE
  | cons p ps =>
    rw [linesL_joinLines]
    rw [List.mem_flatMap]
    exact ⟨E, hE, by rw [linesL_no_newline E.data hnl]; simp⟩

theorem linesL_joinLines_mem {l : List Char} {L : List String} (hL : L ≠ [])
    (h : l ∈ linesL (joinLines L).data) : ∃ E, E ∈ L ∧ l ∈ linesL E.data := by
  cases L with
  | nil => exact absurd rfl hL
  | cons p ps =>
    rw [linesL_joinLines] at h
    exact List.mem_flatMap.mp h

theorem mem_of_mem_ite_nil {α : Type} {P : Prop} [Decidable P] {E : α} {l : List α}
    (h : E ∈ if P then l else []) : E ∈ l := by
  split at h
  · exact h
  · simp at h

theorem mem_of_mem_ite_nil_then {α : Type} {P : Prop} [Decidable P] {E : α} {l : List α}
    (h : E ∈ if P then [] else l) : E ∈ l := by
  split at h
  · simp at h
  · exact h

theorem fixes_ne_of_head {L : List Char} (c : Char) (hc : c ≠ '#')
    (he : "## Fixes".data = L) (h : L.head? = some c) : False := by
  rw [← he] at h
  rw [show ("## Fixes".data).head? = some '#' from rfl] at h
  exact hc (Option.some.inj h).symm

theorem mem_trimL {c : Char} {l : List Char} (h : c ∈ trimL l) : c ∈ l := by
  unfold trimL at h
  rw [List.mem_reverse] at h
  have h1 := (List.dropWhile_sublist _).subset h
  rw [List.mem_reverse] at h1
  exact (List.dropWhile_sublist _).subset h1

theorem mem_pyLStripHash_pyStrip {c : Char} {x : String}
    (h : c ∈ (pyLStripHash (pyStrip x)).data) : c ∈ x.data := by
  unfold pyLStripHash pyStrip at h
  exact mem_trimL ((List.dropWhile_sublist _).subset h)

theorem fixesLine_no_newline (n : Nat) : ∀ c ∈ ("Fixes #" ++ natRepr n).data, c ≠ '\n' := by
  intro c hc
  rw [show ("Fixes #" ++ natRepr n).data = "Fixes #".data ++ (natRepr n).data from rfl,
    List.mem_append] at hc
  rcases hc with hc | hc
  · intro he
    subst he
    revert hc
    decide
  · exact natRepr_no_newline hc

theorem relatesLine_no_newline {num : String} (hd : ∀ c ∈ num.data, c ≠ '\n') :
    ∀ c ∈ ("Relates to #" ++ num).data, c ≠ '\n' := by
  intro c hc
  rw [show ("Relates to #" ++ num).data = "Relates to #".data ++ num.data from rfl,
    List.mem_append] at hc
  rcases hc with hc | hc
  · intro he
    subst he
    revert hc
    decide
  · exact hd c hc

theorem fixes_ne_relates {num : String} (hd : ∀ c ∈ num.data, c ≠ '\n') :
    "## Fixes".data ∉ linesL ("Relates to #" ++ num).data := by
  rw [linesL_no_newline _ (relatesLine_no_newline hd)]
  intro h
  rw [List.mem_singleton] at h
  exact fixes_ne_of_head 'R' (by decide) h rfl

theorem mem_generateBodyLines_fixes {pr : PRDetails} (prn : Nat) {n : Nat}
    (hn : ∃ i ∈ pr.closingIssuesReferences, truthyNum i.number = some n) :
    ("Fixes #" ++ natRepr n) ∈ generateBodyLines pr prn := by
  obtain ⟨i, hi, htn⟩ := hn
  have hne : pr.closingIssuesReferences.isEmpty = false := by
    cases h : pr.closingIssuesReferences with
    | nil => rw [h] at hi; simp at hi
    | cons a l => simp
  unfold generateBodyLines
  dsimp only
  apply List.mem_append_left
  apply List.mem_append_right
  rw [if_neg (by simp [hne])]
  apply List.mem_append_right
  exact List.mem_filterMap.mpr ⟨i, hi, by rw [htn]; rfl⟩

/-- C5. The composed merge body is complete for closing issues: for
every closing-issue number N of the snapshot, the final body (the
deterministic skeleton with all footers appended) contains the line
"Fixes #N"; and when the snapshot's closing-issue list is empty the
"## Fixes" section heading does not occur as a line of the final body
(the hypotheses say the PR title, the commit headlines and the
`--relates-to` arguments contain no newline). -/
theorem fixes_footer_complete (pr : PRDetails) (prn : Nat) (rel : List String)
    (ht : ∀ c ∈ pr.title.data, c ≠ '\n')
    (hcm : ∀ cm ∈ pr.commits, ∀ c ∈ cm.messageHeadline.data, c ≠ '\n')
    (hr : ∀ x ∈ rel, ∀ c ∈ x.data, c ≠ '\n') :
    (∀ n ∈ closingNumbers pr.closingIssuesReferences,
      ("Fixes #" ++ natRepr n).data
        ∈ linesL (composeFooters pr prn rel ((generate_merge_body pr prn).1)).data)
    ∧ (pr.closingIssuesReferences = [] →
      "## Fixes".data
        ∉ linesL (composeFooters pr prn rel ((generate_merge_body pr prn).1)).data) := by
  constructor
  · intro n hn
    obtain ⟨i, hi, htn⟩ := List.mem_filterMap.mp hn
    apply composeFooters_lines_mono
    show ("Fixes #" ++ natRepr n).data ∈ linesL (joinLines (generateBodyLines pr prn)).data
    exact mem_linesL_joinLines (mem_generateBodyLines_fixes prn ⟨i, hi, htn⟩)
      (fixesLine_no_newline n)
  · intro hclosed hmem
    have hfix : appendFixes pr.closingIssuesReferences ((generate_merge_body pr prn).1)
        = (generate_merge_body pr prn).1 := by
      rw [hclosed]
      rfl
    rw [show composeFooters pr prn rel ((generate_merge_body pr prn).1)
        = appendCliRelated rel ((generate_merge_body pr prn).2)
            (appendAutoRelated ((generate_merge_body pr prn).2)
              (appendFixes pr.closingIssuesReferences ((generate_merge_body pr prn).1)))
        from rfl, hfix] at hmem
    rcases appendCliRelated_lines_sub _ _ _ hmem with h1 | h1 | h1 | ⟨x, hx, hl⟩
    · rcases appendAutoRelated_lines_sub _ _ h1 with h2 | h2 | h2 | ⟨x, hx, hl⟩
      · -- a line of the deterministic skeleton
        obtain ⟨E, hE, hlE⟩ := linesL_joinLines_mem
          (by unfold generateBodyLines; dsimp only; simp) h2
        unfold generateBodyLines at hE
        dsimp only at hE
        rw [hclosed] at hE
        simp only [List.isEmpty_nil, if_true, List.append_nil] at hE
        rcases List.mem_append.mp hE with hE | hE
        · rcases List.mem_append.mp hE with hE | hE
          · rcases List.mem_append.mp hE with hE | hE
            · -- the four fixed heading lines
              simp only [List.mem_cons, List.not_mem_nil, or_false] at hE
              rcases hE with rfl | rfl | rfl | rfl
              · have hnl : ∀ c ∈ ("PR #" ++ natRepr prn ++ ": " ++ pr.title).data, c ≠ '\n' := by
                  intro c hc
                  rw [show ("PR #" ++ natRepr prn ++ ": " ++ pr.title).data
                      = (("PR #".data ++ (natRepr prn).data) ++ ": ".data) ++ pr.title.data
                      from rfl] at hc
                  simp only [List.mem_append] at hc
                  rcases hc with ((hc | hc) | hc) | hc
                  · intro he; subst he; revert hc; decide
                  · exact natRepr_no_newline hc
                  · intro he; subst he; revert hc; decide
                  · exact ht c hc
                rw [linesL_no_newline _ hnl, List.mem_singleton] at hlE
                exact fixes_ne_of_head 'P' (by decide) hlE rfl
              · revert hlE; decide
              · revert hlE; decide
              · revert hlE; decide
            · -- a commit line "- " ++ m
              obtain ⟨m, hm, rfl⟩ := List.mem_map.mp hE
              have hmc : m ∈ (pr.commits.map Commit.messageHeadline).filter
                  (fun s => s != "") := (List.take_subset _ _) hm
              obtain ⟨cm, hcm2, rfl⟩ := List.mem_map.mp (List.mem_of_mem_filter hmc)
              have hnl : ∀ c ∈ ("- " ++ cm.messageHeadline).data, c ≠ '\n' := by
                intro c hc
                rw [show ("- " ++ cm.messageHeadline).data
                    = "- ".data ++ cm.messageHeadline.data from rfl, List.mem_append] at hc
                rcases hc with hc | hc
                · intro he; subst he; revert hc; decide
                · exact hcm cm hcm2 c hc
              rw [linesL_no_newline _ hnl, List.mem_singleton] at hlE
              exact fixes_ne_of_head '-' (by decide) hlE rfl
          · -- the "... and N more commits" line
            have hE2 := mem_of_mem_ite_nil hE
            rw [List.mem_singleton] at hE2
            subst hE2
            have hnl : ∀ c ∈ ("- ... and " ++ natRepr (pr.commits.length - 10)
                ++ " more commits").data, c ≠ '\n' := by
              intro c hc
              rw [show ("- ... and " ++ natRepr (pr.commits.length - 10)
                  ++ " more commits").data
                  = ("- ... and ".data ++ (natRepr (pr.commits.length - 10)).data)
                    ++ " more commits".data from rfl] at hc
              simp only [List.mem_append] at hc
              rcases hc with (hc | hc) | hc
              · intro he; subst he; revert hc; decide
              · exact natRepr_no_newline hc
              · intro he; subst he; revert hc; decide
            rw [linesL_no_newline _ hnl, List.mem_singleton] at hlE
            exact fixes_ne_of_head '-' (by decide) hlE rfl
        · -- the Related Issues section of the skeleton
          have hE2 := mem_of_mem_ite_nil_then hE
          rcases List.mem_append.mp hE2 with hE3 | hE3
          · simp only [List.mem_cons, List.not_mem_nil, or_false] at hE3
            rcases hE3 with rfl | rfl | rfl <;> revert hlE <;> decide
          · obtain ⟨num, hnum, rfl⟩ := List.mem_map.mp hE3
            exact fixes_ne_relates
              (fun c hc => digit_ne_newline (autoRelatedOf_digits hnum c hc)) hlE
      · exact absurd h2 (by decide)
      · exact absurd h2 (by decide)
      · exact fixes_ne_relates
          (fun c hc => digit_ne_newline (autoRelatedOf_digits hx c hc)) hl
    · exact absurd h1 (by decide)
    · exact absurd h1 (by decide)
    · exact fixes_ne_relates
        (fun c hc => hr x hx c (mem_pyLStripHash_pyStrip hc)) hl

/-- C5 witness. -/
theorem fixes_footer_complete_witness :
    (∀ n ∈ closingNumbers [Issue.mk (some 17)],
      ("Fixes #" ++ natRepr n).data
        ∈ linesL (composeFooters
            { title := "Add parser", body := some "Part of #9"
              commits := [Commit.mk "feat: add parser", Commit.mk "fix: typo"]
              state := "OPEN", mergeable := "MERGEABLE"
              closingIssuesReferences := [Issue.mk (some 17)] } 42 ["23"]
            ((generate_merge_body
              { title := "Add parser", body := some "Part of #9"
                commits := [Commit.mk "feat: add parser", Commit.mk "fix: typo"]
                state := "OPEN", mergeable := "MERGEABLE"
                closingIssuesReferences := [Issue.mk (some 17)] } 42).1)).data)
    ∧ (([Issue.mk (some 17)] : List Issue) = [] →
      "## Fixes".data
        ∉ linesL (composeFooters
            { title := "Add parser", body := some "Part of #9"
              commits := [Commit.mk "feat: add parser", Commit.mk "fix: typo"]
              state := "OPEN", mergeable := "MERGEABLE"
              closingIssuesReferences := [Issue.mk (some 17)] } 42 ["23"]
            ((generate_merge_body
              { title := "Add parser", body := some "Part of #9"
                commits := [Commit.mk "feat: add parser", Commit.mk "fix: typo"]
                state := "OPEN", mergeable := "MERGEABLE"
                closingIssuesReferences := [Issue.mk (some 17)] } 42).1)).data) :=
  fixes_footer_complete
    { title := "Add parser", body := some "Part of #9"
      commits := [Commit.mk "feat: add parser", Commit.mk "fix: typo"]
      state := "OPEN", mergeable := "MERGEABLE"
      closingIssuesReferences := [Issue.mk (some 17)] } 42 ["23"]
    (by decide) (by decide) (by decide)
